import Mathlib

/-!
Verification development for the deck store of the joka-deck repository
(src/lib/store.ts and src/types.ts).  The store state, the chat data model,
the gateway event payloads and every mutation the claims touch are embedded
as executable Lean definitions; theorems about them follow the definitions.
-/

/-- Message role, from the ChatMessage type in src/types.ts. -/
inductive Role where
  | user
  | assistant
  | system
  | compaction
deriving DecidableEq, Repr

/-- Column status, from the AgentStatus union in src/types.ts. -/
inductive AgentStatus where
  | idle
  | streaming
  | thinking
  | tool_use
  | error
  | disconnected
deriving DecidableEq, Repr

/-- Column mode, from the AgentSession.mode field in src/types.ts. -/
inductive Mode where
  | chat
  | delegation
deriving DecidableEq, Repr

/-- Compaction metadata carried by a compaction-role message (src/types.ts). -/
structure CompactionInfo where
  beforeTokens : Nat
  afterTokens : Nat
  droppedMessages : Nat
deriving DecidableEq, Repr

/-- One chat message, from the ChatMessage interface in src/types.ts.  The
optional `streaming` flag of the source defaults to false (absent means
falsy), `runId` is optional, and `compaction` is present only on
compaction-role messages. -/
structure ChatMessage where
  id : String
  role : Role
  text : String
  timestamp : Nat
  streaming : Bool := false
  runId : Option String := none
  compaction : Option CompactionInfo := none
deriving DecidableEq, Repr

/-- Token usage snapshot, from SessionUsage in src/types.ts. -/
structure SessionUsage where
  inputTokens : Nat
  outputTokens : Nat
  totalTokens : Nat
deriving DecidableEq, Repr

/-- Per-column session state, from the AgentSession interface in src/types.ts. -/
structure AgentSession where
  agentId : String
  status : AgentStatus
  messages : List ChatMessage
  activeRunId : Option String
  tokenCount : Nat
  connected : Bool
  usage : Option SessionUsage := none
  assignedSubagent : Option String := none
  mode : Mode
deriving DecidableEq, Repr

/-- The slice of the zustand store state that the event router and the
mutations mutate: the column-session registry (a JS object, modelled as an
insertion-ordered association list) and the subagent message log keyed by
gateway session key. -/
structure DeckState where
  sessions : List (String × AgentSession)
  subagentMessages : List (String × List ChatMessage)
deriving DecidableEq, Repr

/-- Lookup in a JS object modelled as an association list (first match). -/
def findA {α : Type} (k : String) : List (String × α) → Option α
  | [] => none
  | (k2, v) :: rest => if k2 = k then some v else findA k rest

/-- Object spread update: replace the entry in place when the key exists
(JS objects keep the original insertion position on overwrite), append a
fresh entry at the end otherwise. -/
def setA {α : Type} (k : String) (v : α) : List (String × α) → List (String × α)
  | [] => [(k, v)]
  | (k2, v2) :: rest => if k2 = k then (k2, v) :: rest else (k2, v2) :: setA k v rest

/-- Bool test that a character-list pattern starts the given list. -/
def leadsWith : List Char → List Char → Bool
  | [], _ => true
  | _ :: _, [] => false
  | a :: as, b :: bs => a == b && leadsWith as bs

/-- Bool test that a character-list pattern occurs contiguously in the list;
`occursIn pat.data s.data` embeds the JS `s.includes(pat)` check. -/
def occursIn (pat : List Char) : List Char → Bool
  | [] => leadsWith pat []
  | c :: rest => leadsWith pat (c :: rest) || occursIn pat rest

/-- JS `s.includes(pat)` on strings. -/
def strContains (s pat : String) : Bool :=
  occursIn pat.data s.data

/-- JS `s.split(":")` at the character level: split into colon-delimited
segments; the result is always nonempty and keeps empty segments. -/
def splitC : List Char → List (List Char)
  | [] => [[]]
  | c :: rest =>
    match splitC rest with
    | [] => [[]]
    | seg :: segs => if c = ':' then [] :: seg :: segs else (c :: seg) :: segs

/-- JS `sessionKey.split(":")` as used by the event router. -/
def splitColon (s : String) : List String :=
  (splitC s.data).map (fun cs => String.mk cs)

/-- JS truthiness of an optional string: undefined and the empty string are
falsy, every other string is truthy. -/
def strTruthy : Option String → Bool
  | none => false
  | some s => s != ""

/-- JS `a || b || ""` over two optional strings: first truthy value. -/
def jsOr2 (a b : Option String) : String :=
  if strTruthy a then a.getD "" else if strTruthy b then b.getD "" else ""

/-- JS `s.trim()`: strip leading and trailing whitespace. -/
def trimWS (s : String) : String :=
  String.mk (((s.data.dropWhile Char.isWhitespace).reverse.dropWhile Char.isWhitespace).reverse)

/-- The data object of an agent streaming event: an optional text delta
(assistant stream) and an optional lifecycle phase. -/
structure AgentStreamData where
  delta : Option String := none
  phase : Option String := none
deriving DecidableEq, Repr

/-- Payload of an `agent` gateway event, as destructured at the top of the
agent case of handleGatewayEvent in src/lib/store.ts. -/
structure AgentEventPayload where
  runId : Option String := none
  stream : Option String := none
  data : Option AgentStreamData := none
  sessionKey : Option String := none
deriving DecidableEq, Repr

/-- The message object of a `chat` gateway event, with the optional fields
read by the chat case of handleGatewayEvent.  The numeric form of the wire
timestamp is modelled; an absent timestamp falls back to the current time. -/
structure ChatEventMessage where
  id : Option String := none
  text : Option String := none
  content : Option String := none
  role : Option Role := none
  runId : Option String := none
  timestamp : Option Nat := none
deriving DecidableEq, Repr

/-- A decoded gateway event frame, one constructor per event name handled by
handleGatewayEvent; `unknown` stands for every unrecognized event name. -/
inductive GatewayEvent where
  | agent (p : AgentEventPayload)
  | presence (agents : Option (List (String × Bool)))
  | tick
  | compaction (sessionKey : Option String)
      (beforeTokens afterTokens droppedMessages : Option Nat)
  | sessionsUsage (sessionKey : Option String) (usage : Option SessionUsage)
  | chat (sessionKey : Option String) (message : Option ChatEventMessage)
  | unknown (name : String)
deriving DecidableEq, Repr

/-- The `sessionKey?.includes(":subagent:")` classification used by both the
agent case and the chat case of handleGatewayEvent. -/
def isSubagentSessionKey (k : String) : Bool :=
  strContains k ":subagent:"

/-- Column id derivation `parts[2] ?? parts[1] ?? "main"` applied to
`sessionKey?.split(":") ?? []`, shared by the agent, compaction and
sessions.usage cases of handleGatewayEvent. -/
def deriveAgentId (sessionKey : Option String) : String :=
  let parts : List String :=
    match sessionKey with
    | none => []
    | some k => splitColon k
  match parts.get? 2 with
  | some v => v
  | none =>
    match parts.get? 1 with
    | some v => v
    | none => "main"

/-- createSession from src/lib/store.ts. -/
def createSession (agentId : String) : AgentSession :=
  { agentId := agentId
    status := .idle
    messages := []
    activeRunId := none
    tokenCount := 0
    connected := false
    mode := .chat }

/-- addAgent from src/lib/store.ts, restricted to the session registry. -/
def addAgentOp (agentId : String) (st : DeckState) : DeckState :=
  { st with sessions := setA agentId (createSession agentId) st.sessions }

/-- removeAgent from src/lib/store.ts, restricted to the session registry. -/
def removeAgentOp (agentId : String) (st : DeckState) : DeckState :=
  { st with sessions := st.sessions.filter (fun p => p.1 != agentId) }

/-- setAgentStatus from src/lib/store.ts: a no-op for unknown agents. -/
def setAgentStatus (agentId : String) (status : AgentStatus) (st : DeckState) : DeckState :=
  match findA agentId st.sessions with
  | none => st
  | some session =>
    { st with sessions := setA agentId { session with status := status } st.sessions }

/-- appendMessageChunk from src/lib/store.ts: append the chunk to every
message matching the runId that is still streaming, and bump the approximate
token count by the chunk length; a no-op for unknown agents.  The runId is
optional because the agent event's runId field may be absent on the wire. -/
def appendMessageChunk (agentId : String) (runId : Option String) (chunk : String)
    (st : DeckState) : DeckState :=
  match findA agentId st.sessions with
  | none => st
  | some session =>
    let messages := session.messages.map fun msg =>
      if msg.runId == runId && msg.streaming then { msg with text := msg.text ++ chunk }
      else msg
    let session2 :=
      { session with messages := messages, tokenCount := session.tokenCount + chunk.length }
    { st with sessions := setA agentId session2 st.sessions }

/-- finalizeMessage from src/lib/store.ts: mark every message of the run as
no longer streaming, clear the active run and go idle; a no-op for unknown
agents. -/
def finalizeMessage (agentId : String) (runId : Option String) (st : DeckState) : DeckState :=
  match findA agentId st.sessions with
  | none => st
  | some session =>
    let session2 :=
      { session with
        messages := session.messages.map fun msg =>
          if msg.runId == runId then { msg with streaming := false } else msg
        activeRunId := none
        status := .idle }
    { st with sessions := setA agentId session2 st.sessions }

/-- The first synchronous state update of sendMessage in src/lib/store.ts:
append the user message and go thinking (sendMessage returns early when the
column has no session). -/
def sendMessageUser (agentId uid text : String) (now : Nat) (st : DeckState) : DeckState :=
  match findA agentId st.sessions with
  | none => st
  | some session =>
    let session2 :=
      { session with
        messages := session.messages ++
          [{ id := uid, role := .user, text := text, timestamp := now }]
        status := .thinking }
    { st with sessions := setA agentId session2 st.sessions }

/-- The second state update of sendMessage in src/lib/store.ts, applied after
runAgent resolves with the runId of the new run: append the empt streaming
assistant placeholder, record the active run and go streaming. -/
def sendMessagePlaceholder (agentId aid runId : String) (now : Nat) (st : DeckState) : DeckState :=
  match findA agentId st.sessions with
  | none => st
  | some session =>
    let session2 :=
      { session with
        messages := session.messages ++
          [{ id := aid, role := .assistant, text := "", timestamp := now,
             streaming := true, runId := some runId }]
        activeRunId := some runId
        status := .streaming }
    { st with sessions := setA agentId session2 st.sessions }

/-- clearMessageHistory from src/lib/store.ts. -/
def clearMessageHistory (agentId : String) (st : DeckState) : DeckState :=
  match findA agentId st.sessions with
  | none => st
  | some session =>
    let session2 := { session with messages := [], tokenCount := 0, usage := none }
    { st with sessions := setA agentId session2 st.sessions }

/-- Last colon segment of the key, shortened to eight characters, falling
back to the whole key when empty: the label interpolated into the system
message of assignSubagentToColumn. -/
def subagentShortLabel (key : String) : String :=
  let sliced := String.mk ((((splitColon key).getLast?).getD "").data.take 8)
  if sliced = "" then key else sliced

/-- assignSubagentToColumn from src/lib/store.ts: record the watched key,
switch to delegation mode and append the system notice; a no-op for unknown
columns. -/
def assignSubagentToColumn (columnId sessionKey mid : String) (now : Nat)
    (st : DeckState) : DeckState :=
  match findA columnId st.sessions with
  | none => st
  | some session =>
    let session2 :=
      { session with
        assignedSubagent := some sessionKey
        mode := .delegation
        messages := session.messages ++
          [{ id := mid, role := .system,
             text := "📡 Watching subagent: " ++ subagentShortLabel sessionKey,
             timestamp := now }]
        status := .idle }
    { st with sessions := setA columnId session2 st.sessions }

/-- unassignSubagentFromColumn from src/lib/store.ts. -/
def unassignSubagentFromColumn (columnId mid : String) (now : Nat) (st : DeckState) : DeckState :=
  match findA columnId st.sessions with
  | none => st
  | some session =>
    let session2 :=
      { session with
        assignedSubagent := none
        mode := .chat
        messages := session.messages ++
          [{ id := mid, role := .system, text := "📡 Stopped watching subagent",
             timestamp := now }]
        status := .idle }
    { st with sessions := setA columnId session2 st.sessions }

/-- getColumnBySubagent from src/lib/store.ts: first column (in registry
insertion order) whose assignedSubagent equals the key. -/
def getColumnBySubagent (sessionKey : String) : List (String × AgentSession) → Option String
  | [] => none
  | (columnId, session) :: rest =>
    if session.assignedSubagent = some sessionKey then some columnId
    else getColumnBySubagent sessionKey rest

/-- The synchronous state update of sendSubagentMessage in src/lib/store.ts:
append the user message to the key's subagent log. -/
def sendSubagentMessageLocal (sessionKey uid text : String) (now : Nat)
    (st : DeckState) : DeckState :=
  let log2 := ((findA sessionKey st.subagentMessages).getD []) ++
    [{ id := uid, role := .user, text := text, timestamp := now }]
  { st with subagentMessages := setA sessionKey log2 st.subagentMessages }

/-- The onConnection handler of the gateway client (src/lib/store.ts): mark
every session connected. -/
def markAllConnectedOp (st : DeckState) : DeckState :=
  { st with sessions := st.sessions.map (fun p => (p.1, { p.2 with connected := true })) }

/-- The session-registry effect of initialize in src/lib/store.ts: one fresh
session per configured agent, seeded with that agent's persisted messages
(persistence only ever stores non-streaming messages); the subagent log is
untouched. -/
def initColumnsOp (agents : List (String × List ChatMessage)) (st : DeckState) : DeckState :=
  { st with sessions := agents.map (fun p => (p.1, { createSession p.1 with messages := p.2 })) }

/-- First streaming message of the run gets the delta appended in place;
when none is streaming for that runId, a fresh streaming assistant message
carrying the delta is pushed at the end.  This renders the
findIndex-then-copy update of the subagent assistant-delta branch of
handleGatewayEvent. -/
def appendDeltaToRun (mid : String) (now : Nat) (runId : Option String) (delta : String) :
    List ChatMessage → List ChatMessage
  | [] => [{ id := mid, role := .assistant, text := delta, timestamp := now,
             streaming := true, runId := runId }]
  | m :: rest =>
    if m.runId == runId && m.streaming then { m with text := m.text ++ delta } :: rest
    else m :: appendDeltaToRun mid now runId delta rest

/-- Optional delta of an optional agent data object (`data?.delta`). -/
def optDelta (d : Option AgentStreamData) : Option String :=
  match d with
  | none => none
  | some dd => dd.delta

/-- Optional phase of an optional agent data object (`data?.phase`). -/
def optPhase (d : Option AgentStreamData) : Option String :=
  match d with
  | none => none
  | some dd => dd.phase

/-- Step one of the agent case of handleGatewayEvent: capture subagent
streaming into the subagent message log, independently of any delegation.
Assistant deltas accumulate into (or create) the streaming message of the
run; a lifecycle end marks the run's messages as finished.  Non-subagent
keys leave the state untouched. -/
def agentSubagentCapture (mid : String) (now : Nat) (p : AgentEventPayload)
    (st : DeckState) : DeckState :=
  match p.sessionKey with
  | none => st
  | some k =>
    if isSubagentSessionKey k then
      if p.stream == some "assistant" && strTruthy (optDelta p.data) then
        let log2 := appendDeltaToRun mid now p.runId ((optDelta p.data).getD "")
          ((findA k st.subagentMessages).getD [])
        { st with subagentMessages := setA k log2 st.subagentMessages }
      else if p.stream == some "lifecycle" && optPhase p.data == some "end" then
        let log2 := ((findA k st.subagentMessages).getD []).map fun m =>
          if m.runId == p.runId then { m with streaming := false } else m
        { st with subagentMessages := setA k log2 st.subagentMessages }
      else st
    else st

/-- The delegated-column placeholder step of the agent case of
handleGatewayEvent: when the target column (found through delegation) has no
message for the run yet and the stream is the assistant stream, append an
empty streaming assistant placeholder and record the active run.  The column
session always exists here because the column id was produced by
getColumnBySubagent. -/
def agentColumnPlaceholder (mid : String) (now : Nat) (p : AgentEventPayload)
    (agentId : String) (st : DeckState) : DeckState :=
  match findA agentId st.sessions with
  | none => st
  | some session =>
    if !(session.messages.any fun m => m.runId == p.runId) && p.stream == some "assistant" then
      let session2 :=
        { session with
          messages := session.messages ++
            [{ id := mid, role := .assistant, text := "", timestamp := now,
               streaming := true, runId := p.runId }]
          activeRunId := p.runId }
      { st with sessions := setA agentId session2 st.sessions }
    else st

/-- The final stream dispatch of the agent case of handleGatewayEvent:
assistant deltas accumulate and set status streaming, lifecycle start sets
thinking, lifecycle end finalizes the run, tool_use sets status tool_use. -/
def agentStreamDispatch (p : AgentEventPayload) (agentId : String) (st : DeckState) : DeckState :=
  if p.stream == some "assistant" && strTruthy (optDelta p.data) then
    setAgentStatus agentId .streaming
      (appendMessageChunk agentId p.runId ((optDelta p.data).getD "") st)
  else if p.stream == some "lifecycle" then
    if optPhase p.data == some "start" then setAgentStatus agentId .thinking st
    else if optPhase p.data == some "end" then finalizeMessage agentId p.runId st
    else st
  else if p.stream == some "tool_use" then setAgentStatus agentId .tool_use st
  else st

/-- The `sessionKey?.includes(":subagent:")` test of the agent case, false
for an absent key. -/
def agentIsSubagent (p : AgentEventPayload) : Bool :=
  match p.sessionKey with
  | none => false
  | some k => isSubagentSessionKey k

/-- The full agent case of handleGatewayEvent: capture subagent streaming,
resolve delegation, stop early for a pure (non-delegated) subagent event,
create the delegated placeholder when needed, then dispatch on the stream
kind against the derived or delegated column. -/
def handleAgentEvent (mid1 mid2 : String) (now : Nat) (p : AgentEventPayload)
    (st : DeckState) : DeckState :=
  let st1 := agentSubagentCapture mid1 now p st
  let delegatedColumn : Option String :=
    match p.sessionKey with
    | none => none
    | some k => getColumnBySubagent k st1.sessions
  let agentId : String :=
    match delegatedColumn with
    | some c => c
    | none => deriveAgentId p.sessionKey
  if agentIsSubagent p && delegatedColumn.isNone then st1
  else
    let st2 :=
      match delegatedColumn with
      | some _ => agentColumnPlaceholder mid2 now p agentId st1
      | none => st1
    agentStreamDispatch p agentId st2

/-- The presence case of handleGatewayEvent: for every reported agent id
with a session, update connectivity; going offline forces status
disconnected. -/
def applyPresence : List (String × Bool) → List (String × AgentSession) → List (String × AgentSession)
  | [], sessions => sessions
  | (id, online) :: rest, sessions =>
    let sessions2 :=
      match findA id sessions with
      | none => sessions
      | some s =>
        setA id { s with connected := online,
                         status := if online then s.status else .disconnected } sessions
    applyPresence rest sessions2

/-- The chat case of handleGatewayEvent: capture subagent chat messages with
the deduplication and upsert policy of src/lib/store.ts. -/
def handleChatEvent (mid : String) (now : Nat) (sessionKey : Option String)
    (message : Option ChatEventMessage) (st : DeckState) : DeckState :=
  match sessionKey, message with
  | some k, some msg =>
    if !(isSubagentSessionKey k) then st
    else
      let text : String := jsOr2 msg.text msg.content
      let role : Role := msg.role.getD .assistant
      let msgRunId : Option String := msg.runId
      if trimWS text == "" && role == Role.assistant then st
      else
        let existing := (findA k st.subagentMessages).getD []
        if role == Role.assistant &&
            ((strTruthy msgRunId && existing.any fun m => m.runId == msgRunId) ||
              (existing.any fun m => m.role == Role.assistant && m.streaming)) then st
        else
          let chatMsg : ChatMessage :=
            { id := if strTruthy msg.id then msg.id.getD "" else mid
              role := role
              text := text
              timestamp := msg.timestamp.getD now
              streaming := false
              runId := msgRunId }
          let updated :=
            if chatMsg.id != "" then
              match existing.findIdx? (fun m => m.id == chatMsg.id) with
              | some i => existing.set i chatMsg
              | none => existing ++ [chatMsg]
            else existing ++ [chatMsg]
          { st with subagentMessages := setA k updated st.subagentMessages }
  | _, _ => st

/-- handleGatewayEvent from src/lib/store.ts.  The two id parameters stand
for the values produced by the successive makeId() calls of one invocation
and `now` for Date.now(); unknown event names are ignored. -/
def handleGatewayEvent (mid1 mid2 : String) (now : Nat) (e : GatewayEvent)
    (st : DeckState) : DeckState :=
  match e with
  | .agent p => handleAgentEvent mid1 mid2 now p st
  | .presence agents =>
    match agents with
    | none => st
    | some l => { st with sessions := applyPresence l st.sessions }
  | .tick => st
  | .compaction sessionKey beforeTokens afterTokens droppedMessages =>
    let agentId := deriveAgentId sessionKey
    match findA agentId st.sessions with
    | none => st
    | some session =>
      let compactionMsg : ChatMessage :=
        { id := mid1, role := .compaction, text := "", timestamp := now,
          compaction := some { beforeTokens := beforeTokens.getD 0,
                               afterTokens := afterTokens.getD 0,
                               droppedMessages := droppedMessages.getD 0 } }
      let session2 := { session with messages := session.messages ++ [compactionMsg] }
      { st with sessions := setA agentId session2 st.sessions }
  | .sessionsUsage sessionKey usage =>
    match usage with
    | none => st
    | some u =>
      let agentId := deriveAgentId sessionKey
      match findA agentId st.sessions with
      | none => st
      | some session =>
        let session2 := { session with usage := some u, tokenCount := u.totalTokens }
        { st with sessions := setA agentId session2 st.sessions }
  | .chat sessionKey message => handleChatEvent mid1 now sessionKey message st
  | .unknown _ => st


/-- The empty store: no configured columns, no subagent logs. -/
def initState : DeckState := ⟨[], []⟩

/-- One store operation, as an atomic state transition.  Every mutation of
src/lib/store.ts that touches the session registry or the subagent log has a
constructor; `handleGatewayEvent` covers all event routing at once.  The two
asynchronous halves of sendMessage are separate transitions (other events
may interleave while runAgent is awaited).  Two side conditions record facts
the store obtains from its collaborators rather than enforcing itself: the
runId handed back by runAgent belongs to a freshly started run (no message
of the column carries it yet), and persisted message histories only ever
contain non-streaming messages (saveMessages filters streaming ones out).
When `guard` is true, assignSubagentToColumn is additionally only taken for
a key that no other column currently claims — the availability check that
useAvailableSubagents performs on behalf of the assign callers. -/
inductive Step (guard : Bool) : DeckState → DeckState → Prop where
  | initCols (st : DeckState) (agents : List (String × List ChatMessage))
      (hp : ∀ p ∈ agents, ∀ m ∈ p.2, m.streaming = false) :
      Step guard st (initColumnsOp agents st)
  | addAgent (st : DeckState) (agentId : String) :
      Step guard st (addAgentOp agentId st)
  | removeAgent (st : DeckState) (agentId : String) :
      Step guard st (removeAgentOp agentId st)
  | sendUser (st : DeckState) (agentId uid text : String) (now : Nat) :
      Step guard st (sendMessageUser agentId uid text now st)
  | sendPlaceholder (st : DeckState) (agentId aid runId : String) (now : Nat)
      (hfresh : ∀ sess, findA agentId st.sessions = some sess →
        ∀ m ∈ sess.messages, m.runId ≠ some runId) :
      Step guard st (sendMessagePlaceholder agentId aid runId now st)
  | setStatus (st : DeckState) (agentId : String) (status : AgentStatus) :
      Step guard st (setAgentStatus agentId status st)
  | appendChunk (st : DeckState) (agentId : String) (runId : Option String) (chunk : String) :
      Step guard st (appendMessageChunk agentId runId chunk st)
  | finalize (st : DeckState) (agentId : String) (runId : Option String) :
      Step guard st (finalizeMessage agentId runId st)
  | gatewayEvent (st : DeckState) (mid1 mid2 : String) (now : Nat) (e : GatewayEvent) :
      Step guard st (handleGatewayEvent mid1 mid2 now e st)
  | clearHistory (st : DeckState) (agentId : String) :
      Step guard st (clearMessageHistory agentId st)
  | assign (st : DeckState) (columnId sessionKey mid : String) (now : Nat)
      (hg : guard = true → ∀ p ∈ st.sessions, p.1 ≠ columnId →
        p.2.assignedSubagent ≠ some sessionKey) :
      Step guard st (assignSubagentToColumn columnId sessionKey mid now st)
  | unassign (st : DeckState) (columnId mid : String) (now : Nat) :
      Step guard st (unassignSubagentFromColumn columnId mid now st)
  | sendSub (st : DeckState) (sessionKey uid text : String) (now : Nat) :
      Step guard st (sendSubagentMessageLocal sessionKey uid text now st)
  | markConnected (st : DeckState) :
      Step guard st (markAllConnectedOp st)

/-- States reachable from the empty store by store operations; `guard`
selects whether assignments respect the availability check. -/
def Reach (guard : Bool) (st : DeckState) : Prop :=
  Relation.ReflTransGen (Step guard) initState st

/-- No subagent key is claimed as assignedSubagent by two different columns. -/
def ExclusiveAssign (st : DeckState) : Prop :=
  ∀ c1 s1 c2 s2 key, (c1, s1) ∈ st.sessions → (c2, s2) ∈ st.sessions →
    s1.assignedSubagent = some key → s2.assignedSubagent = some key → c1 = c2

/-- Whether a message counts as the streaming message of run `r`. -/
def streamContrib (r : String) (m : ChatMessage) : Bool :=
  m.runId == some r && m.streaming

/-- Number of streaming messages of run `r` in a message sequence. -/
def streamCount (r : String) (msgs : List ChatMessage) : Nat :=
  (msgs.filter (streamContrib r)).length

/-- At most one streaming message per runId in a message sequence. -/
def StreamUnique (msgs : List ChatMessage) : Prop :=
  ∀ r, streamCount r msgs ≤ 1

/-- Every column session's message sequence has at most one streaming
message per runId. -/
def SessionsStreamInv (st : DeckState) : Prop :=
  ∀ cid sess, findA cid st.sessions = some sess → StreamUnique sess.messages

/-- Every streaming message sitting in a subagent log has the assistant
role (they are created only by the agent-stream accumulator). -/
def SubLogInv (st : DeckState) : Prop :=
  ∀ k m, m ∈ (findA k st.subagentMessages).getD [] → m.streaming = true → m.role = .assistant

/-- Classifier following the spec wording: a session key denotes a subagent
session when its colon-delimited path contains the literal segment
`subagent` (in any position). -/
def specSubagentClassifier (k : String) : Bool :=
  (splitColon k).contains "subagent"

/-- Join colon-separated segments back into one character list (inverse of
splitC). -/
def joinC : List (List Char) → List Char
  | [] => []
  | [s] => s
  | s :: s2 :: ss => s ++ ':' :: joinC (s2 :: ss)

theorem findA_setA_same {α : Type} (k : String) (v : α) (l : List (String × α)) :
    findA k (setA k v l) = some v := by
  induction l with
  | nil => simp [findA, setA]
  | cons p rest ih =>
    rcases p with ⟨k2, v2⟩
    by_cases h : k2 = k
    · simp [findA, setA, h]
    · simp [findA, setA, h, ih]

theorem findA_setA_ne {α : Type} (k k2 : String) (v : α) (l : List (String × α))
    (h : k2 ≠ k) : findA k2 (setA k v l) = findA k2 l := by
  have hk : ¬(k = k2) := fun hh => h hh.symm
  induction l with
  | nil => simp [findA, setA, hk]
  | cons p rest ih =>
    rcases p with ⟨k3, v3⟩
    by_cases h3 : k3 = k
    · subst h3
      simp [findA, setA, hk]
    · simp only [setA, if_neg h3, findA]
      by_cases h4 : k3 = k2
      · simp [h4]
      · simp [h4, ih]

theorem mem_setA {α : Type} (k : String) (v : α) (l : List (String × α))
    (p : String × α) (h : p ∈ setA k v l) : p ∈ l ∨ p = (k, v) := by
  induction l with
  | nil =>
    simp only [setA, List.mem_singleton] at h
    exact Or.inr h
  | cons q rest ih =>
    rcases q with ⟨k2, v2⟩
    simp only [setA] at h
    split at h
    · rename_i heq
      rcases List.mem_cons.mp h with h1 | h1
      · exact Or.inr (by rw [h1, heq])
      · exact Or.inl (List.mem_cons_of_mem _ h1)
    · rcases List.mem_cons.mp h with h1 | h1
      · exact Or.inl (by simp [h1])
      · rcases ih h1 with h3 | h3
        · exact Or.inl (List.mem_cons_of_mem _ h3)
        · exact Or.inr h3

theorem findA_mem {α : Type} (k : String) (v : α) (l : List (String × α))
    (h : findA k l = some v) : (k, v) ∈ l := by
  induction l with
  | nil => simp [findA] at h
  | cons q rest ih =>
    rcases q with ⟨k2, v2⟩
    simp only [findA] at h
    split at h
    · rename_i heq
      injection h with h3
      subst h3
      subst heq
      exact List.mem_cons_self _ _
    · exact List.mem_cons_of_mem _ (ih h)

theorem setAgentStatus_subMsgs (a : String) (s : AgentStatus) (st : DeckState) :
    (setAgentStatus a s st).subagentMessages = st.subagentMessages := by
  unfold setAgentStatus
  split <;> rfl

theorem appendMessageChunk_subMsgs (a : String) (r : Option String) (c : String)
    (st : DeckState) :
    (appendMessageChunk a r c st).subagentMessages = st.subagentMessages := by
  unfold appendMessageChunk
  split <;> rfl

theorem finalizeMessage_subMsgs (a : String) (r : Option String) (st : DeckState) :
    (finalizeMessage a r st).subagentMessages = st.subagentMessages := by
  unfold finalizeMessage
  split <;> rfl

theorem agentStreamDispatch_subMsgs (p : AgentEventPayload) (a : String) (st : DeckState) :
    (agentStreamDispatch p a st).subagentMessages = st.subagentMessages := by
  unfold agentStreamDispatch
  repeat' first
  | rfl
  | rw [setAgentStatus_subMsgs, appendMessageChunk_subMsgs]
  | rw [setAgentStatus_subMsgs]
  | rw [finalizeMessage_subMsgs]
  | split

theorem agentColumnPlaceholder_subMsgs (mid : String) (now : Nat) (p : AgentEventPayload)
    (a : String) (st : DeckState) :
    (agentColumnPlaceholder mid now p a st).subagentMessages = st.subagentMessages := by
  unfold agentColumnPlaceholder
  split <;> try rfl
  split <;> rfl

theorem agentSubagentCapture_sessions (mid : String) (now : Nat) (p : AgentEventPayload)
    (st : DeckState) :
    (agentSubagentCapture mid now p st).sessions = st.sessions := by
  unfold agentSubagentCapture
  repeat' first
  | rfl
  | split

theorem handleChatEvent_sessions (mid : String) (now : Nat) (sk : Option String)
    (msg : Option ChatEventMessage) (st : DeckState) :
    (handleChatEvent mid now sk msg st).sessions = st.sessions := by
  unfold handleChatEvent
  repeat' first
  | rfl
  | split
  | dsimp only

/-- C9: appendMessageChunk on an existing column session always adds the
chunk's character length to the session's tokenCount — also when no message
matches the runId as a streaming message, in which case the message
sequence itself is left untouched, so the token count grows without any
text change. -/
theorem appendChunk_tokenCount (st : DeckState) (agentId : String)
    (runId : Option String) (chunk : String) (sess : AgentSession)
    (h : findA agentId st.sessions = some sess) :
    ∃ sess2, findA agentId (appendMessageChunk agentId runId chunk st).sessions = some sess2 ∧
      sess2.tokenCount = sess.tokenCount + chunk.length ∧
      ((∀ m ∈ sess.messages, ¬(m.runId = runId ∧ m.streaming = true)) →
        sess2.messages = sess.messages) := by
  unfold appendMessageChunk
  rw [h]
  refine ⟨_, findA_setA_same _ _ _, rfl, ?_⟩
  intro hnone
  simp only
  have hmap : ∀ m ∈ sess.messages,
      (if m.runId == runId && m.streaming then { m with text := m.text ++ chunk } else m) = m := by
    intro m hm
    have hno := hnone m hm
    have hc : (m.runId == runId && m.streaming) = false := by
      by_cases h1 : m.runId = runId
      · have h2 : m.streaming = false := by
          rcases Bool.eq_false_or_eq_true m.streaming with h2 | h2
          · exact absurd ⟨h1, h2⟩ hno
          · exact h2
        simp [h2]
      · simp [h1]
    rw [hc]
    rfl
  calc sess.messages.map
        (fun m => if m.runId == runId && m.streaming then { m with text := m.text ++ chunk } else m)
      = sess.messages.map id := List.map_congr_left hmap
    _ = sess.messages := List.map_id _

/-- Witness for C9 at a concrete state: a four-character chunk with an
unmatched runId bumps tokenCount by four and leaves messages alone. -/
theorem appendChunk_tokenCount_witness :
    ∃ sess2, findA "col-a"
        (appendMessageChunk "col-a" (some "r") "abcd"
          ⟨[("col-a", createSession "col-a")], []⟩).sessions = some sess2 ∧
      sess2.tokenCount = (createSession "col-a").tokenCount + "abcd".length ∧
      ((∀ m ∈ (createSession "col-a").messages, ¬(m.runId = some "r" ∧ m.streaming = true)) →
        sess2.messages = (createSession "col-a").messages) :=
  appendChunk_tokenCount ⟨[("col-a", createSession "col-a")], []⟩ "col-a" (some "r") "abcd"
    (createSession "col-a") (by decide)

/-- C6: every mutation aimed at a column id with no session is a complete
no-op — setAgentStatus, appendMessageChunk, finalizeMessage, and the
compaction and sessions.usage event handlers leave the whole store state
unchanged and never create a session implicitly. -/
theorem staleColumn_noop :
    (∀ agentId status st, findA agentId st.sessions = none →
        setAgentStatus agentId status st = st) ∧
    (∀ agentId runId chunk st, findA agentId st.sessions = none →
        appendMessageChunk agentId runId chunk st = st) ∧
    (∀ agentId runId st, findA agentId st.sessions = none →
        finalizeMessage agentId runId st = st) ∧
    (∀ mid1 mid2 now sk b a d st, findA (deriveAgentId sk) st.sessions = none →
        handleGatewayEvent mid1 mid2 now (.compaction sk b a d) st = st) ∧
    (∀ mid1 mid2 now sk u st, findA (deriveAgentId sk) st.sessions = none →
        handleGatewayEvent mid1 mid2 now (.sessionsUsage sk u) st = st) := by
  refine ⟨?_, ?_, ?_, ?_, ?_⟩
  · intro agentId status st h
    unfold setAgentStatus
    rw [h]
  · intro agentId runId chunk st h
    unfold appendMessageChunk
    rw [h]
  · intro agentId runId st h
    unfold finalizeMessage
    rw [h]
  · intro mid1 mid2 now sk b a d st h
    simp [handleGatewayEvent, h]
  · intro mid1 mid2 now sk u st h
    cases u with
    | none => rfl
    | some uu => simp [handleGatewayEvent, h]

/-- Witness for C6 at concrete stale targets on the empty store. -/
theorem staleColumn_noop_witness :
    setAgentStatus "ghost" AgentStatus.idle initState = initState ∧
    appendMessageChunk "ghost" (some "r") "x" initState = initState ∧
    finalizeMessage "ghost" (some "r") initState = initState ∧
    handleGatewayEvent "i" "j" 0 (.compaction (some "agent:main:ghost") none none none)
      initState = initState ∧
    handleGatewayEvent "i" "j" 0
      (.sessionsUsage (some "agent:main:ghost") (some ⟨1, 2, 3⟩)) initState = initState :=
  ⟨staleColumn_noop.1 "ghost" AgentStatus.idle initState (by decide),
   staleColumn_noop.2.1 "ghost" (some "r") "x" initState (by decide),
   staleColumn_noop.2.2.1 "ghost" (some "r") initState (by decide),
   staleColumn_noop.2.2.2.1 "i" "j" 0 (some "agent:main:ghost") none none none initState
     (by decide),
   staleColumn_noop.2.2.2.2 "i" "j" 0 (some "agent:main:ghost") (some ⟨1, 2, 3⟩) initState
     (by decide)⟩

/-- C10: a chat event for a subagent key whose message has (defaulted)
assistant role and empty-or-whitespace effective text is dropped before the
deduplication and upsert stages: the whole store state, in particular the
key's log, is unchanged. -/
theorem chatEmptyAssistantDrop (mid1 mid2 : String) (now : Nat) (st : DeckState)
    (k : String) (msg : ChatEventMessage)
    (hk : isSubagentSessionKey k = true)
    (hrole : msg.role.getD Role.assistant = Role.assistant)
    (htext : trimWS (jsOr2 msg.text msg.content) = "") :
    handleGatewayEvent mid1 mid2 now (.chat (some k) (some msg)) st = st := by
  simp [handleGatewayEvent, handleChatEvent, hk, hrole, htext]

/-- Witness for C10: a whitespace-only assistant chat message for a
subagent key leaves the empty store untouched. -/
theorem chatEmptyAssistantDrop_witness :
    handleGatewayEvent "i" "j" 0
      (.chat (some "agent:main:subagent:abc") (some { text := some "  " }))
      initState = initState :=
  chatEmptyAssistantDrop "i" "j" 0 initState "agent:main:subagent:abc"
    { text := some "  " } (by decide) (by decide) (by decide)

theorem agentSubagentCapture_frame (mid : String) (now : Nat) (p : AgentEventPayload)
    (st : DeckState) (k k2 : String) (hk : p.sessionKey = some k) (hne : k2 ≠ k) :
    findA k2 (agentSubagentCapture mid now p st).subagentMessages =
      findA k2 st.subagentMessages := by
  unfold agentSubagentCapture
  rw [hk]
  split
  · rfl
  · rename_i s heq
    injection heq with h
    subst h
    split
    · split
      · exact findA_setA_ne k k2 _ _ hne
      · split
        · exact findA_setA_ne k k2 _ _ hne
        · rfl
    · rfl

/-- C3: an agent event whose key is classified as a subagent session and
which no column watches (no assignedSubagent match) never touches the
column sessions map; only the event key's own subagent log can change. -/
theorem pureSubagentFrame (mid1 mid2 : String) (now : Nat) (p : AgentEventPayload)
    (st : DeckState) (k : String)
    (hk : p.sessionKey = some k)
    (hsub : isSubagentSessionKey k = true)
    (hnodel : getColumnBySubagent k st.sessions = none) :
    (handleGatewayEvent mid1 mid2 now (.agent p) st).sessions = st.sessions ∧
    (∀ k2, k2 ≠ k →
      findA k2 (handleGatewayEvent mid1 mid2 now (.agent p) st).subagentMessages =
        findA k2 st.subagentMessages) := by
  have hsess := agentSubagentCapture_sessions mid1 now p st
  have hred : handleGatewayEvent mid1 mid2 now (.agent p) st =
      agentSubagentCapture mid1 now p st := by
    simp only [handleGatewayEvent, handleAgentEvent, hk, hsess, hnodel, agentIsSubagent,
      hsub, Option.isNone_none, Bool.and_true, if_true]
  rw [hred]
  exact ⟨hsess, fun k2 hne => agentSubagentCapture_frame mid1 now p st k k2 hk hne⟩

/-- Witness for C3: an assistant delta on an unwatched subagent key with one
configured column leaves the session registry alone and other log keys
unchanged. -/
theorem pureSubagentFrame_witness :
    (handleGatewayEvent "i" "j" 0
        (.agent { runId := some "r", stream := some "assistant",
                  data := some { delta := some "Hi" },
                  sessionKey := some "agent:main:subagent:abc" })
        ⟨[("col-a", createSession "col-a")], []⟩).sessions =
      (⟨[("col-a", createSession "col-a")], []⟩ : DeckState).sessions ∧
    (∀ k2, k2 ≠ "agent:main:subagent:abc" →
      findA k2 (handleGatewayEvent "i" "j" 0
        (.agent { runId := some "r", stream := some "assistant",
                  data := some { delta := some "Hi" },
                  sessionKey := some "agent:main:subagent:abc" })
        ⟨[("col-a", createSession "col-a")], []⟩).subagentMessages =
      findA k2 (⟨[("col-a", createSession "col-a")], []⟩ : DeckState).subagentMessages) :=
  pureSubagentFrame "i" "j" 0
    { runId := some "r", stream := some "assistant",
      data := some { delta := some "Hi" }, sessionKey := some "agent:main:subagent:abc" }
    ⟨[("col-a", createSession "col-a")], []⟩ "agent:main:subagent:abc"
    rfl (by decide) (by decide)

theorem agentSubagentCapture_nonSub (mid : String) (now : Nat) (p : AgentEventPayload)
    (st : DeckState) (k : String) (hk : p.sessionKey = some k)
    (hsub : isSubagentSessionKey k = false) :
    agentSubagentCapture mid now p st = st := by
  unfold agentSubagentCapture
  rw [hk]
  split
  · rfl
  · rename_i s heq
    injection heq with h
    subst h
    rw [hsub]
    simp

/-- C2: an agent event with a plain column key (not subagent-classified, not
watched by any column) and an existing target session applies the documented
transition: an assistant delta is appended to the streaming messages of the
run and the status becomes streaming; lifecycle end clears streaming flags
of the run, nulls activeRunId and goes idle; lifecycle start goes thinking;
tool_use goes tool_use. -/
theorem columnAgentRouting (mid1 mid2 : String) (now : Nat) (p : AgentEventPayload)
    (st : DeckState) (k : String) (sess : AgentSession)
    (hk : p.sessionKey = some k)
    (hsub : isSubagentSessionKey k = false)
    (hnodel : getColumnBySubagent k st.sessions = none)
    (hsess : findA (deriveAgentId p.sessionKey) st.sessions = some sess) :
    (∀ dl, p.stream = some "assistant" → optDelta p.data = some dl → dl ≠ "" →
      ∃ sess2, findA (deriveAgentId p.sessionKey)
          (handleGatewayEvent mid1 mid2 now (.agent p) st).sessions = some sess2 ∧
        sess2.messages = sess.messages.map (fun m =>
          if m.runId == p.runId && m.streaming then { m with text := m.text ++ dl } else m) ∧
        sess2.tokenCount = sess.tokenCount + dl.length ∧
        sess2.status = AgentStatus.streaming) ∧
    (p.stream = some "lifecycle" → optPhase p.data = some "end" →
      ∃ sess2, findA (deriveAgentId p.sessionKey)
          (handleGatewayEvent mid1 mid2 now (.agent p) st).sessions = some sess2 ∧
        sess2.messages = sess.messages.map (fun m =>
          if m.runId == p.runId then { m with streaming := false } else m) ∧
        sess2.activeRunId = none ∧
        sess2.status = AgentStatus.idle) ∧
    (p.stream = some "lifecycle" → optPhase p.data = some "start" →
      ∃ sess2, findA (deriveAgentId p.sessionKey)
          (handleGatewayEvent mid1 mid2 now (.agent p) st).sessions = some sess2 ∧
        sess2 = { sess with status := AgentStatus.thinking }) ∧
    (p.stream = some "tool_use" →
      ∃ sess2, findA (deriveAgentId p.sessionKey)
          (handleGatewayEvent mid1 mid2 now (.agent p) st).sessions = some sess2 ∧
        sess2 = { sess with status := AgentStatus.tool_use }) := by
  have hred : handleGatewayEvent mid1 mid2 now (.agent p) st =
      agentStreamDispatch p (deriveAgentId p.sessionKey) st := by
    simp only [handleGatewayEvent, handleAgentEvent,
      agentSubagentCapture_nonSub mid1 now p st k hk hsub, hk, hnodel,
      agentIsSubagent, hsub, Bool.false_and, Option.isNone_none, if_false,
      Bool.false_eq_true]
  rw [hred]
  refine ⟨?_, ?_, ?_, ?_⟩
  · intro dl hstream hdl hne
    unfold agentStreamDispatch
    rw [hstream, hdl]
    have hc : ((some "assistant" : Option String) == some "assistant" &&
        strTruthy (some dl)) = true := by
      simp [strTruthy, hne]
    rw [if_pos hc]
    simp only [appendMessageChunk, hsess, Option.getD_some, setAgentStatus, findA_setA_same]
    exact ⟨_, rfl, rfl, rfl, rfl⟩
  · intro hstream hphase
    unfold agentStreamDispatch
    rw [hstream, hphase]
    have hc1 : ((some "lifecycle" : Option String) == some "assistant" &&
        strTruthy (optDelta p.data)) = false := by
      simp
    have hc2 : ((some "lifecycle" : Option String) == some "lifecycle") = true := by decide
    have hc3 : ((some "end" : Option String) == some "start") = false := by decide
    have hc4 : ((some "end" : Option String) == some "end") = true := by decide
    rw [if_neg (by simp [hc1]), if_pos hc2, if_neg (by simp [hc3]), if_pos hc4]
    simp only [finalizeMessage, hsess]
    exact ⟨_, findA_setA_same _ _ _, rfl, rfl, rfl⟩
  · intro hstream hphase
    unfold agentStreamDispatch
    rw [hstream, hphase]
    have hc1 : ((some "lifecycle" : Option String) == some "assistant" &&
        strTruthy (optDelta p.data)) = false := by
      simp
    have hc2 : ((some "lifecycle" : Option String) == some "lifecycle") = true := by decide
    have hc3 : ((some "start" : Option String) == some "start") = true := by decide
    rw [if_neg (by simp [hc1]), if_pos hc2, if_pos hc3]
    simp only [setAgentStatus, hsess]
    exact ⟨_, findA_setA_same _ _ _, rfl⟩
  · intro hstream
    unfold agentStreamDispatch
    rw [hstream]
    have hc1 : ((some "tool_use" : Option String) == some "assistant" &&
        strTruthy (optDelta p.data)) = false := by
      simp
    have hc2 : ((some "tool_use" : Option String) == some "lifecycle") = false := by decide
    have hc3 : ((some "tool_use" : Option String) == some "tool_use") = true := by decide
    rw [if_neg (by simp [hc1]), if_neg (by simp [hc2]), if_pos hc3]
    simp only [setAgentStatus, hsess]
    exact ⟨_, findA_setA_same _ _ _, rfl⟩

/-- Witness for C2: an assistant delta event for column col-a appends the
delta to its streaming run message, bumps tokenCount and goes streaming. -/
theorem columnAgentRouting_witness :
    ∃ sess2, findA (deriveAgentId (some "agent:main:col-a"))
        (handleGatewayEvent "i" "j" 0
          (.agent { runId := some "r1", stream := some "assistant",
                    data := some { delta := some "Hel" },
                    sessionKey := some "agent:main:col-a" })
          ⟨[("col-a", { createSession "col-a" with
              messages := [{ id := "a1", role := Role.assistant, text := "",
                             timestamp := 0, streaming := true, runId := some "r1" }] })],
            []⟩).sessions = some sess2 ∧
      sess2.messages = List.map (fun m =>
          if m.runId == (some "r1" : Option String) && m.streaming then
            { m with text := m.text ++ "Hel" }
          else m)
        [{ id := "a1", role := Role.assistant, text := "", timestamp := 0,
           streaming := true, runId := some "r1" }] ∧
      sess2.tokenCount = 0 + "Hel".length ∧
      sess2.status = AgentStatus.streaming :=
  (columnAgentRouting "i" "j" 0
    { runId := some "r1", stream := some "assistant",
      data := some { delta := some "Hel" }, sessionKey := some "agent:main:col-a" }
    ⟨[("col-a", { createSession "col-a" with
        messages := [{ id := "a1", role := Role.assistant, text := "",
                       timestamp := 0, streaming := true, runId := some "r1" }] })], []⟩
    "agent:main:col-a"
    { createSession "col-a" with
      messages := [{ id := "a1", role := Role.assistant, text := "",
                     timestamp := 0, streaming := true, runId := some "r1" }] }
    rfl (by decide) (by decide) (by decide)).1 "Hel" rfl rfl (by decide)

theorem findIdxP_some_of_mem {α : Type} (p : α → Bool) (l : List α)
    (h : ∃ m ∈ l, p m = true) : ∃ i, l.findIdx? p = some i := by
  induction l with
  | nil => simp at h
  | cons a rest ih =>
    by_cases hp : p a = true
    · exact ⟨0, by simp [hp]⟩
    · rcases h with ⟨m, hm, hpm⟩
      rcases List.mem_cons.mp hm with h1 | h1
      · subst h1
        exact absurd hpm hp
      · rcases ih ⟨m, h1, hpm⟩ with ⟨i, hi⟩
        exact ⟨i + 1, by simp [hp, hi]⟩

theorem findIdxP_none_of_not_mem {α : Type} (p : α → Bool) (l : List α)
    (h : ∀ m ∈ l, p m = false) : l.findIdx? p = none := by
  rw [List.findIdx?_eq_none_iff]
  intro m hm
  simp [h m hm]

/-- C5: a subagent chat event that passes the drop guards upserts by message
id — an existing id is replaced in place (log length unchanged), a new id is
appended at the end (log length grows by one). -/
theorem chatUpsert (mid1 mid2 : String) (now : Nat) (st : DeckState) (k : String)
    (msg : ChatEventMessage) (mid : String)
    (hk : isSubagentSessionKey k = true)
    (hid : msg.id = some mid) (hmid : mid ≠ "")
    (hne : ¬(trimWS (jsOr2 msg.text msg.content) = "" ∧
        msg.role.getD Role.assistant = Role.assistant))
    (hnd1 : msg.role.getD Role.assistant = Role.assistant → strTruthy msg.runId = true →
        ∀ m ∈ (findA k st.subagentMessages).getD [], m.runId ≠ msg.runId)
    (hnd2 : msg.role.getD Role.assistant = Role.assistant →
        ∀ m ∈ (findA k st.subagentMessages).getD [],
          ¬(m.role = Role.assistant ∧ m.streaming = true)) :
    ((∃ m ∈ (findA k st.subagentMessages).getD [], m.id = mid) →
      ∃ i, ((findA k st.subagentMessages).getD []).findIdx? (fun m => m.id == mid) = some i ∧
        findA k (handleGatewayEvent mid1 mid2 now (.chat (some k) (some msg)) st).subagentMessages =
          some (((findA k st.subagentMessages).getD []).set i
            { id := mid, role := msg.role.getD Role.assistant,
              text := jsOr2 msg.text msg.content, timestamp := msg.timestamp.getD now,
              streaming := false, runId := msg.runId }) ∧
        (((findA k st.subagentMessages).getD []).set i
            { id := mid, role := msg.role.getD Role.assistant,
              text := jsOr2 msg.text msg.content, timestamp := msg.timestamp.getD now,
              streaming := false, runId := msg.runId }).length =
          ((findA k st.subagentMessages).getD []).length) ∧
    ((∀ m ∈ (findA k st.subagentMessages).getD [], m.id ≠ mid) →
      findA k (handleGatewayEvent mid1 mid2 now (.chat (some k) (some msg)) st).subagentMessages =
        some ((findA k st.subagentMessages).getD [] ++
          [{ id := mid, role := msg.role.getD Role.assistant,
             text := jsOr2 msg.text msg.content, timestamp := msg.timestamp.getD now,
             streaming := false, runId := msg.runId }]) ∧
      ((findA k st.subagentMessages).getD [] ++
        [({ id := mid, role := msg.role.getD Role.assistant,
            text := jsOr2 msg.text msg.content, timestamp := msg.timestamp.getD now,
            streaming := false, runId := msg.runId } : ChatMessage)]).length =
        ((findA k st.subagentMessages).getD []).length + 1) := by
  have hcond1 : (!(isSubagentSessionKey k)) = false := by rw [hk]; rfl
  have htext : (trimWS (jsOr2 msg.text msg.content) == "" &&
      msg.role.getD Role.assistant == Role.assistant) = false := by
    rcases Bool.eq_false_or_eq_true (trimWS (jsOr2 msg.text msg.content) == "") with h1 | h1
    · have h2 : trimWS (jsOr2 msg.text msg.content) = "" := by simpa using h1
      have hrole : ¬(msg.role.getD Role.assistant = Role.assistant) := fun hr => hne ⟨h2, hr⟩
      simp [hrole]
    · simp [h1]
  have hdedup : (msg.role.getD Role.assistant == Role.assistant &&
      ((strTruthy msg.runId &&
          ((findA k st.subagentMessages).getD []).any (fun m => m.runId == msg.runId)) ||
        ((findA k st.subagentMessages).getD []).any
          (fun m => m.role == Role.assistant && m.streaming))) = false := by
    by_cases hrole : msg.role.getD Role.assistant = Role.assistant
    · have ha1 : ((findA k st.subagentMessages).getD []).any
          (fun m => m.role == Role.assistant && m.streaming) = false := by
        rw [List.any_eq_false]
        intro m hm
        intro hc
        simp only [Bool.and_eq_true] at hc
        rcases hc with ⟨hc1, hc2⟩
        exact hnd2 hrole m hm ⟨by simpa using hc1, hc2⟩
      by_cases hrt : strTruthy msg.runId = true
      · have ha2 : ((findA k st.subagentMessages).getD []).any
            (fun m => m.runId == msg.runId) = false := by
          rw [List.any_eq_false]
          intro m hm hc
          exact hnd1 hrole hrt m hm (by simpa using hc)
        simp [hrt, ha1, ha2]
      · have hrf : strTruthy msg.runId = false := by
          rcases Bool.eq_false_or_eq_true (strTruthy msg.runId) with h | h
          · exact absurd h hrt
          · exact h
        simp [hrf, ha1]
    · simp [hrole]
  have hmidb : (mid != "") = true := by
    simp [hmid]
  have hidT : strTruthy (some mid) = true := by
    simpa [strTruthy] using hmidb
  constructor
  · intro hex
    have hexb : ∃ m ∈ (findA k st.subagentMessages).getD [], (fun m => m.id == mid) m = true := by
      rcases hex with ⟨m, hm, hmi⟩
      exact ⟨m, hm, by simpa using hmi⟩
    rcases findIdxP_some_of_mem _ _ hexb with ⟨i, hi⟩
    refine ⟨i, hi, ?_, List.length_set ..⟩
    simp only [handleGatewayEvent, handleChatEvent, hcond1, htext, hdedup, hidT,
      Bool.false_eq_true, if_false, Option.getD_some, hid, hmidb, if_true, hi]
    exact findA_setA_same _ _ _
  · intro hnone
    have hnoneb : ((findA k st.subagentMessages).getD []).findIdx?
        (fun m => m.id == mid) = none := by
      apply findIdxP_none_of_not_mem
      intro m hm
      simp [hnone m hm]
    simp only [handleGatewayEvent, handleChatEvent, hcond1, htext, hdedup, hidT,
      Bool.false_eq_true, if_false, Option.getD_some, hid, hmidb, if_true, hnoneb]
    exact ⟨findA_setA_same _ _ _, by simp⟩

/-- Witness for C5: a chat event re-delivering id c9 with edited text
replaces the log entry in place, leaving the count at one. -/
theorem chatUpsert_witness :
    ∃ i, List.findIdx? (fun m => m.id == "c9")
        [({ id := "c9", role := Role.user, text := "question", timestamp := 1 } : ChatMessage)] =
          some i ∧
      findA "agent:x:subagent:y"
        (handleGatewayEvent "g1" "g2" 9
          (.chat (some "agent:x:subagent:y")
            (some { id := some "c9", text := some "edited", role := some Role.user,
                    timestamp := some 2 }))
          ⟨[], [("agent:x:subagent:y",
                 [{ id := "c9", role := Role.user, text := "question",
                    timestamp := 1 }])]⟩).subagentMessages =
        some (List.set
          [({ id := "c9", role := Role.user, text := "question", timestamp := 1 } : ChatMessage)]
          i { id := "c9", role := Role.user, text := "edited", timestamp := 2,
              streaming := false, runId := none }) ∧
      (List.set
          [({ id := "c9", role := Role.user, text := "question", timestamp := 1 } : ChatMessage)]
          i { id := "c9", role := Role.user, text := "edited", timestamp := 2,
              streaming := false, runId := none }).length =
        [({ id := "c9", role := Role.user, text := "question", timestamp := 1 } : ChatMessage)].length :=
  (chatUpsert "g1" "g2" 9
    ⟨[], [("agent:x:subagent:y",
           [{ id := "c9", role := Role.user, text := "question", timestamp := 1 }])]⟩
    "agent:x:subagent:y"
    { id := some "c9", text := some "edited", role := some Role.user, timestamp := some 2 }
    "c9" (by decide) rfl (by decide) (by decide)
    (fun h => absurd h (by decide)) (fun h => absurd h (by decide))).1
    ⟨{ id := "c9", role := Role.user, text := "question", timestamp := 1 }, by decide, rfl⟩

theorem leadsWith_iff (p : List Char) : ∀ l, leadsWith p l = true ↔ ∃ t, l = p ++ t := by
  induction p with
  | nil => intro l; simp [leadsWith]
  | cons a as ih =>
    intro l
    cases l with
    | nil => simp [leadsWith]
    | cons b bs =>
      simp only [leadsWith, Bool.and_eq_true, beq_iff_eq, ih, List.cons_append]
      constructor
      · rintro ⟨rfl, t, rfl⟩
        exact ⟨t, rfl⟩
      · rintro ⟨t, ht⟩
        injection ht with h1 h2
        exact ⟨h1.symm, t, h2⟩

theorem occursIn_iff (p : List Char) : ∀ l, occursIn p l = true ↔ ∃ pre t, l = pre ++ (p ++ t) := by
  intro l
  induction l with
  | nil =>
    simp only [occursIn, leadsWith_iff]
    constructor
    · rintro ⟨t, ht⟩
      exact ⟨[], t, by simpa using ht⟩
    · rintro ⟨pre, t, ht⟩
      rcases List.append_eq_nil.mp ht.symm with ⟨h1, h2⟩
      rcases List.append_eq_nil.mp h2 with ⟨h3, h4⟩
      exact ⟨[], by simp [h3, h4]⟩
  | cons c rest ih =>
    simp only [occursIn, Bool.or_eq_true, leadsWith_iff, ih]
    constructor
    · rintro (⟨t, ht⟩ | ⟨pre, t, ht⟩)
      · exact ⟨[], t, by simpa using ht⟩
      · exact ⟨c :: pre, t, by simp [ht]⟩
    · rintro ⟨pre, t, ht⟩
      cases pre with
      | nil => exact Or.inl ⟨t, by simpa using ht⟩
      | cons d pre' =>
        injection ht with h1 h2
        exact Or.inr ⟨pre', t, h2⟩

theorem splitC_ne_nil (l : List Char) : splitC l ≠ [] := by
  cases l with
  | nil => simp [splitC]
  | cons c rest =>
    unfold splitC
    rcases hs : splitC rest with _ | ⟨seg, segs⟩ <;> simp only [hs]
    · simp
    · split <;> simp

theorem splitC_append_colon (xs ys : List Char) :
    splitC (xs ++ ':' :: ys) = splitC xs ++ splitC ys := by
  induction xs with
  | nil =>
    rcases hs : splitC ys with _ | ⟨seg, segs⟩
    · exact absurd hs (splitC_ne_nil ys)
    · simp [splitC, hs]
  | cons c xs' ih =>
    rcases hs : splitC xs' with _ | ⟨s, ss⟩
    · exact absurd hs (splitC_ne_nil xs')
    · have h2 : splitC (xs' ++ ':' :: ys) = s :: (ss ++ splitC ys) := by
        rw [ih, hs]
        rfl
      rw [List.cons_append]
      show splitC (c :: (xs' ++ ':' :: ys)) = splitC (c :: xs') ++ splitC ys
      conv_lhs => rw [splitC, h2]
      conv_rhs => rw [splitC, hs]
      by_cases hc : c = ':' <;> simp [hc]

theorem splitC_no_colon (xs : List Char) (h : ∀ c ∈ xs, c ≠ ':') : splitC xs = [xs] := by
  induction xs with
  | nil => rfl
  | cons c rest ih =>
    have hc : c ≠ ':' := h c (by simp)
    have ih2 := ih (fun d hd => h d (by simp [hd]))
    simp [splitC, ih2, hc]

theorem joinC_splitC (l : List Char) : joinC (splitC l) = l := by
  induction l with
  | nil => rfl
  | cons c rest ih =>
    rcases hs : splitC rest with _ | ⟨seg, segs⟩
    · exact absurd hs (splitC_ne_nil rest)
    · rw [hs] at ih
      simp only [splitC, hs]
      by_cases hc : c = ':'
      · subst hc
        simp only [if_pos rfl]
        simpa [joinC] using ih
      · simp only [if_neg hc]
        cases segs with
        | nil =>
          simp only [joinC] at ih ⊢
          rw [ih]
        | cons s2 ss =>
          simp only [joinC] at ih ⊢
          rw [← ih]
          simp

theorem joinC_append (A B : List (List Char)) (hA : A ≠ []) (hB : B ≠ []) :
    joinC (A ++ B) = joinC A ++ ':' :: joinC B := by
  induction A with
  | nil => exact absurd rfl hA
  | cons a A' ih =>
    cases A' with
    | nil =>
      cases B with
      | nil => exact absurd rfl hB
      | cons b B' => simp [joinC]
    | cons a2 A'' =>
      have ih2 := ih (by simp)
      have ih3 : joinC (a2 :: (A'' ++ B)) = joinC (a2 :: A'') ++ ':' :: joinC B := by
        simpa using ih2
      calc joinC ((a :: a2 :: A'') ++ B)
          = a ++ ':' :: joinC (a2 :: (A'' ++ B)) := by simp [joinC]
        _ = a ++ ':' :: (joinC (a2 :: A'') ++ ':' :: joinC B) := by rw [ih3]
        _ = joinC (a :: a2 :: A'') ++ ':' :: joinC B := by simp [joinC]

theorem get?_append_length {α : Type} (A : List α) (x : α) (B : List α) :
    (A ++ x :: B).get? A.length = some x := by
  induction A with
  | nil => rfl
  | cons a A' ih => simpa using ih

theorem get?_decomp {α : Type} (l : List α) : ∀ (i : Nat) (x : α), l.get? i = some x →
    ∃ A B, l = A ++ x :: B ∧ A.length = i := by
  induction l with
  | nil => intro i x h; simp [List.get?] at h
  | cons a rest ih =>
    intro i x h
    cases i with
    | zero =>
      simp only [List.get?, Option.some.injEq] at h
      exact ⟨[], rest, by simp [h], rfl⟩
    | succ n =>
      simp only [List.get?] at h
      rcases ih n x h with ⟨A, B, hl, hlen⟩
      exact ⟨a :: A, B, by simp [hl], by simp [hlen]⟩

theorem occursIn_seg_iff (mid : List Char) (hm : ∀ c ∈ mid, c ≠ ':') (l : List Char) :
    occursIn (':' :: mid ++ [':']) l = true ↔
      ∃ i, 0 < i ∧ i + 1 < (splitC l).length ∧ (splitC l).get? i = some mid := by
  constructor
  · intro h
    rcases (occursIn_iff _ _).mp h with ⟨pre, t, hl⟩
    have hl2 : l = pre ++ ':' :: (mid ++ ':' :: t) := by
      rw [hl]
      simp
    have hsplit : splitC l = splitC pre ++ [mid] ++ splitC t := by
      rw [hl2, splitC_append_colon, splitC_append_colon, splitC_no_colon mid hm]
      simp
    refine ⟨(splitC pre).length, ?_, ?_, ?_⟩
    · rcases hp : splitC pre with _ | ⟨s, ss⟩
      · exact absurd hp (splitC_ne_nil pre)
      · simp [hp]
    · rcases ht : splitC t with _ | ⟨s2, ss2⟩
      · exact absurd ht (splitC_ne_nil t)
      · rw [hsplit, ht]
        simp
    · rw [hsplit]
      have hg := get?_append_length (splitC pre) mid (splitC t)
      simpa [List.append_assoc] using hg
  · rintro ⟨i, hi0, hilen, hget⟩
    rcases get?_decomp _ _ _ hget with ⟨A, B, hAB, hlen⟩
    have hA : A ≠ [] := by
      intro hnil
      rw [hnil] at hlen
      simp at hlen
      omega
    have hB : B ≠ [] := by
      intro hnil
      rw [hAB, hnil] at hilen
      simp at hilen
      omega
    rw [occursIn_iff]
    refine ⟨joinC A, joinC B, ?_⟩
    have hjoin := joinC_splitC l
    rw [← hjoin, hAB]
    rw [joinC_append A (mid :: B) hA (by simp)]
    have hmidB : joinC (mid :: B) = mid ++ ':' :: joinC B := by
      cases B with
      | nil => exact absurd rfl hB
      | cons b B' => simp [joinC]
    rw [hmidB]
    simp

/-- Counterexample for C7: the spec-style segment classifier and the code's
substring classifier disagree on a key whose FIRST segment is `subagent` —
the code does not treat it as a subagent session. -/
theorem subagentClassifierSpecGap :
    ¬(∀ k, isSubagentSessionKey k = specSubagentClassifier k) := by
  intro h
  have h1 := h "subagent:abc"
  rw [show isSubagentSessionKey "subagent:abc" = false from by decide,
      show specSubagentClassifier "subagent:abc" = true from by decide] at h1
  exact Bool.false_ne_true h1

/-- C7 amended: the router classifies a key as a subagent session exactly
when some colon-delimited segment other than the first and the last equals
`subagent` (equivalently, when the key contains the substring
`:subagent:`); a key whose only `subagent` segment is first or last is not
classified as a subagent session. -/
theorem subagentClassifierCharacterization (k : String) :
    isSubagentSessionKey k = true ↔
      ∃ i, 0 < i ∧ i + 1 < (splitColon k).length ∧ (splitColon k).get? i = some "subagent" := by
  have hpat : (":subagent:" : String).data =
      ':' :: ("subagent" : String).data ++ [':'] := by decide
  have hm : ∀ c ∈ ("subagent" : String).data, c ≠ ':' := by decide
  have hmain := occursIn_seg_iff ("subagent" : String).data hm k.data
  rw [show isSubagentSessionKey k = occursIn (":subagent:" : String).data k.data from rfl,
      hpat, hmain]
  constructor
  · rintro ⟨i, h0, hlen, hget⟩
    refine ⟨i, h0, ?_, ?_⟩
    · simpa [splitColon] using hlen
    · simp only [splitColon, List.get?_map, hget, Option.map_some']
  · rintro ⟨i, h0, hlen, hget⟩
    refine ⟨i, h0, by simpa [splitColon] using hlen, ?_⟩
    simp only [splitColon, List.get?_map, Option.map_eq_some'] at hget
    rcases hget with ⟨cs, hcs, hmk⟩
    have : cs = ("subagent" : String).data := by
      have h2 : String.mk cs = String.mk ("subagent" : String).data := hmk
      injection h2
    rw [hcs, this]

/-- Witness for the amended C7 on both sides: an interior `subagent` segment
is classified, and the classifier output agrees with the characterization at
index two. -/
theorem subagentClassifierCharacterization_witness :
    isSubagentSessionKey "agent:main:subagent:abc" = true :=
  (subagentClassifierCharacterization "agent:main:subagent:abc").mpr
    ⟨2, by decide, by decide, by decide⟩

theorem sendMessageUser_subMsgs (a u t : String) (now : Nat) (st : DeckState) :
    (sendMessageUser a u t now st).subagentMessages = st.subagentMessages := by
  unfold sendMessageUser
  split <;> rfl

theorem sendMessagePlaceholder_subMsgs (a u r : String) (now : Nat) (st : DeckState) :
    (sendMessagePlaceholder a u r now st).subagentMessages = st.subagentMessages := by
  unfold sendMessagePlaceholder
  split <;> rfl

theorem clearMessageHistory_subMsgs (a : String) (st : DeckState) :
    (clearMessageHistory a st).subagentMessages = st.subagentMessages := by
  unfold clearMessageHistory
  split <;> rfl

theorem assignSubagentToColumn_subMsgs (c k m : String) (now : Nat) (st : DeckState) :
    (assignSubagentToColumn c k m now st).subagentMessages = st.subagentMessages := by
  unfold assignSubagentToColumn
  split <;> rfl

theorem unassignSubagentFromColumn_subMsgs (c m : String) (now : Nat) (st : DeckState) :
    (unassignSubagentFromColumn c m now st).subagentMessages = st.subagentMessages := by
  unfold unassignSubagentFromColumn
  split <;> rfl

theorem subLogInv_of_eq (st st2 : DeckState) (h : st2.subagentMessages = st.subagentMessages)
    (hi : SubLogInv st) : SubLogInv st2 := by
  intro k m hm
  rw [h] at hm
  exact hi k m hm

theorem subLogInv_setA (st st2 : DeckState) (k : String) (log2 : List ChatMessage)
    (h : st2.subagentMessages = setA k log2 st.subagentMessages)
    (hlog : ∀ m ∈ log2, m.streaming = true → m.role = Role.assistant)
    (hi : SubLogInv st) : SubLogInv st2 := by
  intro k2 m hm
  rw [h] at hm
  by_cases hk : k2 = k
  · subst hk
    rw [findA_setA_same] at hm
    exact hlog m (by simpa using hm)
  · rw [findA_setA_ne _ _ _ _ hk] at hm
    exact hi k2 m hm

theorem appendDeltaToRun_roleInv (mid : String) (now : Nat) (rid : Option String)
    (delta : String) : ∀ (msgs : List ChatMessage),
    (∀ m ∈ msgs, m.streaming = true → m.role = Role.assistant) →
    ∀ m ∈ appendDeltaToRun mid now rid delta msgs,
      m.streaming = true → m.role = Role.assistant := by
  intro msgs
  induction msgs with
  | nil =>
    intro h m hm
    simp only [appendDeltaToRun, List.mem_singleton] at hm
    subst hm
    intro _
    rfl
  | cons m0 rest ih =>
    intro h mm hmm
    by_cases hc : (m0.runId == rid && m0.streaming) = true
    · rw [appendDeltaToRun, if_pos hc] at hmm
      rcases List.mem_cons.mp hmm with h1 | h1
      · subst h1
        intro hs
        exact h m0 (by simp) hs
      · exact h mm (by simp [h1])
    · rw [appendDeltaToRun, if_neg hc] at hmm
      rcases List.mem_cons.mp hmm with h1 | h1
      · subst h1
        exact h mm (by simp)
      · exact ih (fun m2 hm2 hs2 => h m2 (by simp [hm2]) hs2) mm h1

theorem capture_subLogInv (mid : String) (now : Nat) (p : AgentEventPayload)
    (st : DeckState) (hi : SubLogInv st) :
    SubLogInv (agentSubagentCapture mid now p st) := by
  unfold agentSubagentCapture
  split
  · exact hi
  · rename_i k heq
    split
    · split
      · refine subLogInv_setA st _ k _ rfl ?_ hi
        exact appendDeltaToRun_roleInv mid now p.runId _ _ (fun m hm => hi k m hm)

      · split
        · refine subLogInv_setA st _ k _ rfl ?_ hi
          intro m hm hs
          rcases List.mem_map.mp hm with ⟨m0, hm0, hf⟩
          by_cases hc : (m0.runId == p.runId) = true
          · rw [if_pos hc] at hf
            rw [← hf] at hs
            cases hs
          · rw [if_neg hc] at hf
            subst hf
            exact hi k m0 hm0 hs
        · exact hi
    · exact hi

theorem chat_subLogInv (mid : String) (now : Nat) (sk : Option String)
    (msg : Option ChatEventMessage) (st : DeckState) (hi : SubLogInv st) :
    SubLogInv (handleChatEvent mid now sk msg st) := by
  cases sk with
  | none => exact hi
  | some k =>
    cases msg with
    | none => exact hi
    | some m =>
      unfold handleChatEvent
      dsimp only
      repeat' first
        | exact hi
        | refine subLogInv_setA st _ k _ rfl ?_ hi
        | split
      all_goals
        intro m2 hm2 hs2
        repeat' split at hm2
        first
        | (rcases List.mem_or_eq_of_mem_set hm2 with h1 | h1
           · exact hi k m2 h1 hs2
           · rw [h1] at hs2
             cases hs2)
        | (rcases List.mem_append.mp hm2 with h1 | h1
           · exact hi k m2 h1 hs2
           · rw [List.mem_singleton.mp h1] at hs2
             cases hs2)

theorem gatewayEvent_subLogInv (mid1 mid2 : String) (now : Nat) (e : GatewayEvent)
    (st : DeckState) (hi : SubLogInv st) :
    SubLogInv (handleGatewayEvent mid1 mid2 now e st) := by
  cases e with
  | agent p =>
    have h1 := capture_subLogInv mid1 now p st hi
    simp only [handleGatewayEvent, handleAgentEvent]
    split
    · exact h1
    · refine subLogInv_of_eq _ _ ?_ h1
      rw [agentStreamDispatch_subMsgs]
      split
      · rw [agentColumnPlaceholder_subMsgs]
      · rfl
  | presence agents =>
    cases agents with
    | none => exact hi
    | some l => exact subLogInv_of_eq st _ rfl hi
  | tick => exact hi
  | compaction sk b a d =>
    simp only [handleGatewayEvent]
    split
    · exact hi
    · exact subLogInv_of_eq st _ rfl hi
  | sessionsUsage sk u =>
    cases u with
    | none => exact hi
    | some uu =>
      simp only [handleGatewayEvent]
      split
      · exact hi
      · exact subLogInv_of_eq st _ rfl hi
  | chat sk m => exact chat_subLogInv mid1 now sk m st hi
  | unknown n => exact hi

theorem step_subLogInv {g : Bool} {st st2 : DeckState} (h : Step g st st2)
    (hi : SubLogInv st) : SubLogInv st2 := by
  cases h with
  | initCols agents hp => exact subLogInv_of_eq st _ rfl hi
  | addAgent a => exact subLogInv_of_eq st _ rfl hi
  | removeAgent a => exact subLogInv_of_eq st _ rfl hi
  | sendUser a u t now => exact subLogInv_of_eq st _ (sendMessageUser_subMsgs a u t now st) hi
  | sendPlaceholder a u r now hf =>
    exact subLogInv_of_eq st _ (sendMessagePlaceholder_subMsgs a u r now st) hi
  | setStatus a s => exact subLogInv_of_eq st _ (setAgentStatus_subMsgs a s st) hi
  | appendChunk a r c => exact subLogInv_of_eq st _ (appendMessageChunk_subMsgs a r c st) hi
  | finalize a r => exact subLogInv_of_eq st _ (finalizeMessage_subMsgs a r st) hi
  | gatewayEvent m1 m2 now e => exact gatewayEvent_subLogInv m1 m2 now e st hi
  | clearHistory a => exact subLogInv_of_eq st _ (clearMessageHistory_subMsgs a st) hi
  | assign c k m now hg => exact subLogInv_of_eq st _ (assignSubagentToColumn_subMsgs c k m now st) hi
  | unassign c m now => exact subLogInv_of_eq st _ (unassignSubagentFromColumn_subMsgs c m now st) hi
  | sendSub k u t now =>
    refine subLogInv_setA st _ k _ rfl ?_ hi
    intro m hm hs
    rcases List.mem_append.mp hm with h1 | h1
    · exact hi k m h1 hs
    · rw [List.mem_singleton.mp h1] at hs
      cases hs
  | markConnected => exact subLogInv_of_eq st _ rfl hi

theorem reach_subLogInv {g : Bool} {st : DeckState} (h : Reach g st) : SubLogInv st := by
  induction h with
  | refl =>
    intro k m hm
    simp [findA] at hm
  | tail h1 h2 ih => exact step_subLogInv h2 ih

/-- C4: for a reachable store state, an assistant chat event for a subagent
key is dropped — the whole state unchanged — whenever the key's log already
holds a message with the event's runId or any currently streaming message.
(Event well-formedness: a present runId is nonempty, as gateway run ids
are.) -/
theorem chatDedupDrop (mid1 mid2 : String) (now : Nat) (st : DeckState) (k : String)
    (msg : ChatEventMessage)
    (hreach : Reach false st)
    (hk : isSubagentSessionKey k = true)
    (hrole : msg.role.getD Role.assistant = Role.assistant)
    (hwf : msg.runId ≠ some "")
    (hdrop : (∃ r, msg.runId = some r ∧
        ∃ m ∈ (findA k st.subagentMessages).getD [], m.runId = some r) ∨
      (∃ m ∈ (findA k st.subagentMessages).getD [], m.streaming = true)) :
    handleGatewayEvent mid1 mid2 now (.chat (some k) (some msg)) st = st := by
  have hinv := reach_subLogInv hreach
  have hded : (msg.role.getD Role.assistant == Role.assistant &&
      ((strTruthy msg.runId &&
          ((findA k st.subagentMessages).getD []).any (fun m2 => m2.runId == msg.runId)) ||
        ((findA k st.subagentMessages).getD []).any
          (fun m2 => m2.role == Role.assistant && m2.streaming))) = true := by
    rcases hdrop with ⟨r, hr, m, hm, hmr⟩ | ⟨m, hm, hs⟩
    · have hstr : strTruthy msg.runId = true := by
        rw [hr]
        simp only [strTruthy]
        rw [bne_iff_ne]
        intro hre
        exact hwf (by rw [hr, hre])
      have hany : ((findA k st.subagentMessages).getD []).any
          (fun m2 => m2.runId == msg.runId) = true := by
        rw [List.any_eq_true]
        refine ⟨m, hm, ?_⟩
        rw [hmr, hr]
        simp
      simp [hrole, hstr, hany]
    · have hany : ((findA k st.subagentMessages).getD []).any
          (fun m2 => m2.role == Role.assistant && m2.streaming) = true := by
        rw [List.any_eq_true]
        refine ⟨m, hm, ?_⟩
        rw [hinv k m hm hs, hs]
        simp
      simp [hrole, hany]
  have h1 : (!(isSubagentSessionKey k)) = false := by
    rw [hk]
    rfl
  show handleChatEvent mid1 now (some k) (some msg) st = st
  unfold handleChatEvent
  dsimp only
  rw [h1]
  simp only [Bool.false_eq_true, if_false]
  by_cases ht : (trimWS (jsOr2 msg.text msg.content) == "" &&
      msg.role.getD Role.assistant == Role.assistant) = true
  · rw [if_pos ht]
  · rw [if_neg ht, if_pos hded]

/-- Witness for C4: after a streamed subagent delta created a streaming
assistant message, a duplicate assistant chat event for the same key is a
no-op. -/
theorem chatDedupDrop_witness :
    handleGatewayEvent "a" "b" 1
      (.chat (some "agent:main:subagent:z")
        (some { text := some "dup", role := some Role.assistant }))
      (handleGatewayEvent "i" "j" 0
        (.agent { runId := some "r", stream := some "assistant",
                  data := some { delta := some "Hi" },
                  sessionKey := some "agent:main:subagent:z" })
        initState) =
      handleGatewayEvent "i" "j" 0
        (.agent { runId := some "r", stream := some "assistant",
                  data := some { delta := some "Hi" },
                  sessionKey := some "agent:main:subagent:z" })
        initState :=
  chatDedupDrop "a" "b" 1 _ "agent:main:subagent:z"
    { text := some "dup", role := some Role.assistant }
    (Relation.ReflTransGen.tail Relation.ReflTransGen.refl
      (Step.gatewayEvent initState "i" "j" 0
        (.agent { runId := some "r", stream := some "assistant",
                  data := some { delta := some "Hi" },
                  sessionKey := some "agent:main:subagent:z" })))
    (by decide) (by decide) (by decide)
    (Or.inr ⟨{ id := "i", role := Role.assistant, text := "Hi", timestamp := 0,
               streaming := true, runId := some "r" }, by decide, rfl⟩)

theorem exclusive_of_sessions_eq (st st2 : DeckState) (h : st2.sessions = st.sessions)
    (hi : ExclusiveAssign st) : ExclusiveAssign st2 := by
  intro c1 s1 c2 s2 key h1 h2 ha1 ha2
  rw [h] at h1 h2
  exact hi c1 s1 c2 s2 key h1 h2 ha1 ha2

theorem exclusive_setA_update (st : DeckState) (cid : String) (v : AgentSession)
    (st2 : DeckState) (hs2 : st2.sessions = setA cid v st.sessions)
    (hv : v.assignedSubagent = none ∨
      ∃ sess, findA cid st.sessions = some sess ∧ v.assignedSubagent = sess.assignedSubagent)
    (hi : ExclusiveAssign st) : ExclusiveAssign st2 := by
  intro c1 s1 c2 s2 key h1 h2 ha1 ha2
  rw [hs2] at h1 h2
  rcases mem_setA _ _ _ _ h1 with h1o | h1n
  · rcases mem_setA _ _ _ _ h2 with h2o | h2n
    · exact hi c1 s1 c2 s2 key h1o h2o ha1 ha2
    · rw [Prod.mk.injEq] at h2n
      rcases h2n with ⟨rfl, rfl⟩
      rcases hv with hnone | ⟨sess, hf, hpres⟩
      · rw [hnone] at ha2
        cases ha2
      · have hks : sess.assignedSubagent = some key := by
          rw [← hpres]
          exact ha2
        exact hi c1 s1 c2 sess key h1o (findA_mem _ _ _ hf) ha1 hks
  · rw [Prod.mk.injEq] at h1n
    rcases h1n with ⟨rfl, rfl⟩
    rcases mem_setA _ _ _ _ h2 with h2o | h2n
    · rcases hv with hnone | ⟨sess, hf, hpres⟩
      · rw [hnone] at ha1
        cases ha1
      · have hks : sess.assignedSubagent = some key := by
          rw [← hpres]
          exact ha1
        exact (hi c2 s2 c1 sess key h2o (findA_mem _ _ _ hf) ha2 hks).symm
    · rw [Prod.mk.injEq] at h2n
      exact h2n.1.symm

theorem setAgentStatus_exclusive (a : String) (s0 : AgentStatus) (st : DeckState)
    (hi : ExclusiveAssign st) : ExclusiveAssign (setAgentStatus a s0 st) := by
  unfold setAgentStatus
  split
  · exact hi
  · rename_i sess hf
    exact exclusive_setA_update st a _ _ rfl (Or.inr ⟨sess, hf, rfl⟩) hi

theorem appendMessageChunk_exclusive (a : String) (r : Option String) (c : String)
    (st : DeckState) (hi : ExclusiveAssign st) :
    ExclusiveAssign (appendMessageChunk a r c st) := by
  unfold appendMessageChunk
  split
  · exact hi
  · rename_i sess hf
    exact exclusive_setA_update st a _ _ rfl (Or.inr ⟨sess, hf, rfl⟩) hi

theorem finalizeMessage_exclusive (a : String) (r : Option String) (st : DeckState)
    (hi : ExclusiveAssign st) : ExclusiveAssign (finalizeMessage a r st) := by
  unfold finalizeMessage
  split
  · exact hi
  · rename_i sess hf
    exact exclusive_setA_update st a _ _ rfl (Or.inr ⟨sess, hf, rfl⟩) hi

theorem agentColumnPlaceholder_exclusive (mid : String) (now : Nat) (p : AgentEventPayload)
    (a : String) (st : DeckState) (hi : ExclusiveAssign st) :
    ExclusiveAssign (agentColumnPlaceholder mid now p a st) := by
  unfold agentColumnPlaceholder
  split
  · exact hi
  · rename_i sess hf
    split
    · exact exclusive_setA_update st a _ _ rfl (Or.inr ⟨sess, hf, rfl⟩) hi
    · exact hi

theorem agentStreamDispatch_exclusive (p : AgentEventPayload) (a : String) (st : DeckState)
    (hi : ExclusiveAssign st) : ExclusiveAssign (agentStreamDispatch p a st) := by
  unfold agentStreamDispatch
  split
  · exact setAgentStatus_exclusive _ _ _ (appendMessageChunk_exclusive _ _ _ _ hi)
  · split
    · split
      · exact setAgentStatus_exclusive _ _ _ hi
      · split
        · exact finalizeMessage_exclusive _ _ _ hi
        · exact hi
    · split
      · exact setAgentStatus_exclusive _ _ _ hi
      · exact hi

theorem applyPresence_carry (ps : List (String × Bool)) :
    ∀ (l : List (String × AgentSession)) (c : String) (s2 : AgentSession),
      (c, s2) ∈ applyPresence ps l →
      ∃ s, (c, s) ∈ l ∧ s2.assignedSubagent = s.assignedSubagent := by
  induction ps with
  | nil =>
    intro l c s2 hm
    exact ⟨s2, hm, rfl⟩
  | cons p ps' ih =>
    intro l c s2 hm
    rcases p with ⟨id, online⟩
    simp only [applyPresence] at hm
    rcases hf : findA id l with _ | s0
    · rw [hf] at hm
      exact ih l c s2 hm
    · rw [hf] at hm
      rcases ih _ c s2 hm with ⟨s, hs, he⟩
      rcases mem_setA _ _ _ _ hs with ho | hn
      · exact ⟨s, ho, he⟩
      · rw [Prod.mk.injEq] at hn
        rcases hn with ⟨rfl, rfl⟩
        exact ⟨s0, findA_mem _ _ _ hf, he⟩

theorem exclusive_of_carry (st : DeckState) (l2 : List (String × AgentSession))
    (hc : ∀ c s2, (c, s2) ∈ l2 →
      ∃ s, (c, s) ∈ st.sessions ∧ s2.assignedSubagent = s.assignedSubagent)
    (hi : ExclusiveAssign st) (st2 : DeckState) (h2 : st2.sessions = l2) :
    ExclusiveAssign st2 := by
  intro c1 s1 c2 s2 key h1 h2m ha1 ha2
  rw [h2] at h1 h2m
  rcases hc c1 s1 h1 with ⟨t1, ht1, he1⟩
  rcases hc c2 s2 h2m with ⟨t2, ht2, he2⟩
  exact hi c1 t1 c2 t2 key ht1 ht2 (he1.symm.trans ha1) (he2.symm.trans ha2)

theorem gatewayEvent_exclusive (m1 m2 : String) (now : Nat) (e : GatewayEvent)
    (st : DeckState) (hi : ExclusiveAssign st) :
    ExclusiveAssign (handleGatewayEvent m1 m2 now e st) := by
  cases e with
  | agent p =>
    have h1 : ExclusiveAssign (agentSubagentCapture m1 now p st) :=
      exclusive_of_sessions_eq _ _ (agentSubagentCapture_sessions m1 now p st) hi
    simp only [handleGatewayEvent, handleAgentEvent]
    split
    · exact h1
    · apply agentStreamDispatch_exclusive
      split
      · exact agentColumnPlaceholder_exclusive _ _ _ _ _ h1
      · exact h1
  | presence agents =>
    cases agents with
    | none => exact hi
    | some l =>
      exact exclusive_of_carry st _ (fun c s2 hm => applyPresence_carry l st.sessions c s2 hm)
        hi _ rfl
  | tick => exact hi
  | compaction sk b a d =>
    simp only [handleGatewayEvent]
    split
    · exact hi
    · rename_i sess hf
      exact exclusive_setA_update st _ _ _ rfl (Or.inr ⟨sess, hf, rfl⟩) hi
  | sessionsUsage sk u =>
    cases u with
    | none => exact hi
    | some uu =>
      simp only [handleGatewayEvent]
      split
      · exact hi
      · rename_i sess hf
        exact exclusive_setA_update st _ _ _ rfl (Or.inr ⟨sess, hf, rfl⟩) hi
  | chat sk m =>
    exact exclusive_of_sessions_eq _ _ (handleChatEvent_sessions m1 now sk m st) hi
  | unknown n => exact hi

theorem step_exclusive {st st2 : DeckState} (h : Step true st st2)
    (hi : ExclusiveAssign st) : ExclusiveAssign st2 := by
  cases h with
  | initCols agents hp =>
    intro c1 s1 c2 s2 key h1 h2 ha1 ha2
    have hnone : ∀ c s, (c, s) ∈ (initColumnsOp agents st).sessions →
        s.assignedSubagent = none := by
      intro c s hm
      simp only [initColumnsOp] at hm
      rcases List.mem_map.mp hm with ⟨p, hp2, heq⟩
      rw [Prod.mk.injEq] at heq
      rw [← heq.2]
      rfl
    rw [hnone c1 s1 h1] at ha1
    cases ha1
  | addAgent a =>
    exact exclusive_setA_update st a _ _ rfl (Or.inl rfl) hi
  | removeAgent a =>
    intro c1 s1 c2 s2 key h1 h2 ha1 ha2
    simp only [removeAgentOp] at h1 h2
    exact hi c1 s1 c2 s2 key (List.mem_of_mem_filter h1) (List.mem_of_mem_filter h2) ha1 ha2
  | sendUser a u t now =>
    unfold sendMessageUser
    split
    · exact hi
    · rename_i sess hf
      exact exclusive_setA_update st a _ _ rfl (Or.inr ⟨sess, hf, rfl⟩) hi
  | sendPlaceholder a u r now hfresh =>
    unfold sendMessagePlaceholder
    split
    · exact hi
    · rename_i sess hf
      exact exclusive_setA_update st a _ _ rfl (Or.inr ⟨sess, hf, rfl⟩) hi
  | setStatus a s0 => exact setAgentStatus_exclusive a s0 st hi
  | appendChunk a r c => exact appendMessageChunk_exclusive a r c st hi
  | finalize a r => exact finalizeMessage_exclusive a r st hi
  | gatewayEvent m1 m2 now e => exact gatewayEvent_exclusive m1 m2 now e st hi
  | clearHistory a =>
    unfold clearMessageHistory
    split
    · exact hi
    · rename_i sess hf
      exact exclusive_setA_update st a _ _ rfl (Or.inr ⟨sess, hf, rfl⟩) hi
  | assign c k m now hg =>
    unfold assignSubagentToColumn
    split
    · exact hi
    · rename_i sess hf
      intro c1 s1 c2 s2 key2 h1 h2 ha1 ha2
      rcases mem_setA _ _ _ _ h1 with h1o | h1n
      · rcases mem_setA _ _ _ _ h2 with h2o | h2n
        · exact hi c1 s1 c2 s2 key2 h1o h2o ha1 ha2
        · rw [Prod.mk.injEq] at h2n
          rcases h2n with ⟨rfl, rfl⟩
          have hk2 : key2 = k := by
            have hsk : some k = some key2 := ha2
            injection hsk with h3
            exact h3.symm
          subst hk2
          by_cases hc : c1 = c2
          · exact hc
          · exact absurd ha1 (hg rfl (c1, s1) h1o hc)
      · rw [Prod.mk.injEq] at h1n
        rcases h1n with ⟨rfl, rfl⟩
        rcases mem_setA _ _ _ _ h2 with h2o | h2n
        · have hk2 : key2 = k := by
            have hsk : some k = some key2 := ha1
            injection hsk with h3
            exact h3.symm
          subst hk2
          by_cases hc : c1 = c2
          · exact hc
          · exact absurd ha2 (hg rfl (c2, s2) h2o (fun hh => hc hh.symm))
        · rw [Prod.mk.injEq] at h2n
          exact h2n.1.symm
  | unassign c m now =>
    unfold unassignSubagentFromColumn
    split
    · exact hi
    · rename_i sess hf
      exact exclusive_setA_update st c _ _ rfl (Or.inl rfl) hi
  | sendSub k u t now =>
    intro c1 s1 c2 s2 key h1 h2 ha1 ha2
    exact hi c1 s1 c2 s2 key h1 h2 ha1 ha2
  | markConnected =>
    intro c1 s1 c2 s2 key h1 h2 ha1 ha2
    simp only [markAllConnectedOp] at h1 h2
    rcases List.mem_map.mp h1 with ⟨⟨c1b, t1⟩, ht1, heq1⟩
    rcases List.mem_map.mp h2 with ⟨⟨c2b, t2⟩, ht2, heq2⟩
    rw [Prod.mk.injEq] at heq1 heq2
    rcases heq1 with ⟨rfl, rfl⟩
    rcases heq2 with ⟨rfl, rfl⟩
    exact hi c1b t1 c2b t2 key ht1 ht2 ha1 ha2

/-- Counterexample for C1: the store itself does not enforce delegation
exclusivity — assigning the same subagent key to two different existing
columns in sequence yields a reachable state where both columns claim it. -/
theorem delegationExclusivityFails :
    ¬(∀ st, Reach false st → ExclusiveAssign st) := by
  intro hall
  have t1 : Step false initState (addAgentOp "a" initState) :=
    Step.addAgent initState "a"
  have t2 : Step false (addAgentOp "a" initState)
      (addAgentOp "b" (addAgentOp "a" initState)) :=
    Step.addAgent _ "b"
  have t3 : Step false (addAgentOp "b" (addAgentOp "a" initState))
      (assignSubagentToColumn "a" "k" "m1" 0 (addAgentOp "b" (addAgentOp "a" initState))) :=
    Step.assign _ "a" "k" "m1" 0 (fun hh => absurd hh Bool.false_ne_true)
  have t4 : Step false
      (assignSubagentToColumn "a" "k" "m1" 0 (addAgentOp "b" (addAgentOp "a" initState)))
      (assignSubagentToColumn "b" "k" "m2" 0
        (assignSubagentToColumn "a" "k" "m1" 0 (addAgentOp "b" (addAgentOp "a" initState)))) :=
    Step.assign _ "b" "k" "m2" 0 (fun hh => absurd hh Bool.false_ne_true)
  have hreach : Reach false (assignSubagentToColumn "b" "k" "m2" 0
      (assignSubagentToColumn "a" "k" "m1" 0 (addAgentOp "b" (addAgentOp "a" initState)))) :=
    ((((Relation.ReflTransGen.refl).tail t1).tail t2).tail t3).tail t4
  have hex := hall _ hreach
  have hA : ((assignSubagentToColumn "b" "k" "m2" 0
      (assignSubagentToColumn "a" "k" "m1" 0
        (addAgentOp "b" (addAgentOp "a" initState)))).sessions.any
      (fun p => p.1 == "a" && p.2.assignedSubagent == some "k")) = true := by decide
  have hB : ((assignSubagentToColumn "b" "k" "m2" 0
      (assignSubagentToColumn "a" "k" "m1" 0
        (addAgentOp "b" (addAgentOp "a" initState)))).sessions.any
      (fun p => p.1 == "b" && p.2.assignedSubagent == some "k")) = true := by decide
  rw [List.any_eq_true] at hA hB
  rcases hA with ⟨⟨ca, sa⟩, hma, hpa⟩
  rcases hB with ⟨⟨cb, sb⟩, hmb, hpb⟩
  simp only [Bool.and_eq_true, beq_iff_eq] at hpa hpb
  have heq := hex ca sa cb sb "k" hma hmb hpa.2 hpb.2
  rw [hpa.1, hpb.1] at heq
  exact absurd heq (by decide)

/-- C1 amended: when every assignment respects the availability check that
the UI callers perform through useAvailableSubagents (never assign a key
some other column already claims), every reachable state satisfies
delegation exclusivity: no subagent key is the assignedSubagent of two
different columns. -/
theorem delegationExclusivityGuarded (st : DeckState) (h : Reach true st) :
    ExclusiveAssign st := by
  induction h with
  | refl =>
    intro c1 s1 c2 s2 key h1 h2 ha1 ha2
    simp [initState] at h1
  | tail h1 h2 ih => exact step_exclusive h2 ih

/-- Witness for the amended C1: a guarded assignment chain yields an
exclusive state. -/
theorem delegationExclusivityGuarded_witness :
    ExclusiveAssign (assignSubagentToColumn "a" "agent:x:subagent:k" "m1" 0
      (addAgentOp "b" (addAgentOp "a" initState))) :=
  delegationExclusivityGuarded _
    ((((Relation.ReflTransGen.refl).tail (Step.addAgent initState "a")).tail
        (Step.addAgent _ "b")).tail
      (Step.assign _ "a" "agent:x:subagent:k" "m1" 0 (fun _ => by decide)))

theorem streamCount_cons (r : String) (m : ChatMessage) (ms : List ChatMessage) :
    streamCount r (m :: ms) = (if streamContrib r m then 1 else 0) + streamCount r ms := by
  by_cases h : streamContrib r m = true
  · simp [streamCount, List.filter_cons, h, Nat.add_comm]
  · simp [streamCount, List.filter_cons, h]

theorem streamCount_append (r : String) (a b : List ChatMessage) :
    streamCount r (a ++ b) = streamCount r a + streamCount r b := by
  simp [streamCount, List.filter_append]

theorem streamCount_map_le (r : String) (f : ChatMessage → ChatMessage)
    (h : ∀ m, streamContrib r (f m) = true → streamContrib r m = true)
    (msgs : List ChatMessage) :
    streamCount r (msgs.map f) ≤ streamCount r msgs := by
  induction msgs with
  | nil => simp [streamCount]
  | cons m ms ih =>
    rw [List.map_cons, streamCount_cons, streamCount_cons]
    cases hv : streamContrib r (f m) with
    | true =>
      rw [h m hv]
      simpa using ih
    | false =>
      simp only [Bool.false_eq_true, if_false, Nat.zero_add]
      cases hv2 : streamContrib r m <;> simp <;> omega
  
theorem streamCount_map_eq (r : String) (f : ChatMessage → ChatMessage)
    (h : ∀ m, streamContrib r (f m) = streamContrib r m)
    (msgs : List ChatMessage) :
    streamCount r (msgs.map f) = streamCount r msgs := by
  induction msgs with
  | nil => rfl
  | cons m ms ih => rw [List.map_cons, streamCount_cons, streamCount_cons, h, ih]

theorem streamCount_zero_of_no_run (r : String) (msgs : List ChatMessage)
    (h : ∀ m ∈ msgs, m.runId ≠ some r) : streamCount r msgs = 0 := by
  induction msgs with
  | nil => rfl
  | cons m ms ih =>
    rw [streamCount_cons]
    have hc : streamContrib r m = false := by
      have hr := h m (by simp)
      simp [streamContrib, hr]
    rw [hc, ih (fun m2 hm2 => h m2 (by simp [hm2]))]
    simp

theorem streamUnique_append_inert (msgs : List ChatMessage) (m : ChatMessage)
    (hm : m.streaming = false ∨ m.runId = none)
    (hu : StreamUnique msgs) : StreamUnique (msgs ++ [m]) := by
  intro r
  rw [streamCount_append]
  have hc : streamContrib r m = false := by
    rcases hm with h | h <;> simp [streamContrib, h]
  have h1 : streamCount r [m] = 0 := by
    rw [streamCount_cons, hc]
    simp [streamCount]
  rw [h1]
  simpa using hu r

theorem streamUnique_append_freshRun (msgs : List ChatMessage) (m : ChatMessage)
    (hfresh : ∀ m2 ∈ msgs, m2.runId ≠ m.runId)
    (hu : StreamUnique msgs) : StreamUnique (msgs ++ [m]) := by
  intro r
  rw [streamCount_append]
  by_cases hr : m.runId = some r
  · have h0 : streamCount r msgs = 0 :=
      streamCount_zero_of_no_run r msgs (fun m2 hm2 => by
        rw [← hr]
        exact hfresh m2 hm2)
    rw [h0]
    have : streamCount r [m] ≤ 1 := by
      rw [streamCount_cons]
      split <;> simp [streamCount]
    simpa using this
  · have hc : streamContrib r m = false := by
      simp [streamContrib, hr]
    have h1 : streamCount r [m] = 0 := by
      rw [streamCount_cons, hc]
      simp [streamCount]
    rw [h1]
    simpa using hu r

theorem streamUnique_of_no_streaming (msgs : List ChatMessage)
    (h : ∀ m ∈ msgs, m.streaming = false) : StreamUnique msgs := by
  intro r
  have : streamCount r msgs = 0 := by
    induction msgs with
    | nil => rfl
    | cons m ms ih =>
      rw [streamCount_cons]
      have hc : streamContrib r m = false := by
        simp [streamContrib, h m (by simp)]
      rw [hc, ih (fun m2 hm2 => h m2 (by simp [hm2]))]
      simp
  omega

theorem streamInv_setA_update (st : DeckState) (cid : String) (v : AgentSession)
    (st2 : DeckState) (hs2 : st2.sessions = setA cid v st.sessions)
    (hv : StreamUnique v.messages)
    (hi : SessionsStreamInv st) : SessionsStreamInv st2 := by
  intro cid2 sess h
  rw [hs2] at h
  by_cases hc : cid2 = cid
  · subst hc
    rw [findA_setA_same] at h
    injection h with h2
    rw [← h2]
    exact hv
  · rw [findA_setA_ne cid cid2 v _ hc] at h
    exact hi cid2 sess h

theorem streamInv_of_sessions_eq (st st2 : DeckState) (h : st2.sessions = st.sessions)
    (hi : SessionsStreamInv st) : SessionsStreamInv st2 := by
  intro cid sess hm
  rw [h] at hm
  exact hi cid sess hm

theorem setAgentStatus_streamInv (a : String) (s0 : AgentStatus) (st : DeckState)
    (hi : SessionsStreamInv st) : SessionsStreamInv (setAgentStatus a s0 st) := by
  unfold setAgentStatus
  split
  · exact hi
  · rename_i sess hf
    exact streamInv_setA_update st a _ _ rfl (hi a sess hf) hi

theorem appendMessageChunk_streamInv (a : String) (r : Option String) (c : String)
    (st : DeckState) (hi : SessionsStreamInv st) :
    SessionsStreamInv (appendMessageChunk a r c st) := by
  unfold appendMessageChunk
  split
  · exact hi
  · rename_i sess hf
    refine streamInv_setA_update st a _ _ rfl ?_ hi
    intro rr
    have hcontrib : ∀ m, streamContrib rr
        (if (m.runId == r && m.streaming) = true then { m with text := m.text ++ c } else m) =
        streamContrib rr m := by
      intro m
      split <;> rfl
    rw [streamCount_map_eq rr _ hcontrib sess.messages]
    exact hi a sess hf rr

theorem finalizeMessage_streamInv (a : String) (r : Option String) (st : DeckState)
    (hi : SessionsStreamInv st) : SessionsStreamInv (finalizeMessage a r st) := by
  unfold finalizeMessage
  split
  · exact hi
  · rename_i sess hf
    refine streamInv_setA_update st a _ _ rfl ?_ hi
    intro rr
    have hmono : ∀ m, streamContrib rr
        (if (m.runId == r) = true then { m with streaming := false } else m) = true →
        streamContrib rr m = true := by
      intro m hc
      by_cases hm : (m.runId == r) = true
      · rw [if_pos hm] at hc
        simp [streamContrib] at hc
      · rw [if_neg hm] at hc
        exact hc
    exact le_trans (streamCount_map_le rr _ hmono sess.messages) (hi a sess hf rr)

theorem sendMessageUser_streamInv (a u t : String) (now : Nat) (st : DeckState)
    (hi : SessionsStreamInv st) : SessionsStreamInv (sendMessageUser a u t now st) := by
  unfold sendMessageUser
  split
  · exact hi
  · rename_i sess hf
    refine streamInv_setA_update st a _ _ rfl ?_ hi
    exact streamUnique_append_inert _ _ (Or.inl rfl) (hi a sess hf)

theorem sendMessagePlaceholder_streamInv (a u r : String) (now : Nat) (st : DeckState)
    (hfresh : ∀ sess, findA a st.sessions = some sess →
      ∀ m ∈ sess.messages, m.runId ≠ some r)
    (hi : SessionsStreamInv st) : SessionsStreamInv (sendMessagePlaceholder a u r now st) := by
  unfold sendMessagePlaceholder
  split
  · exact hi
  · rename_i sess hf
    refine streamInv_setA_update st a _ _ rfl ?_ hi
    exact streamUnique_append_freshRun _ _ (fun m2 hm2 => hfresh sess hf m2 hm2) (hi a sess hf)

theorem clearMessageHistory_streamInv (a : String) (st : DeckState)
    (hi : SessionsStreamInv st) : SessionsStreamInv (clearMessageHistory a st) := by
  unfold clearMessageHistory
  split
  · exact hi
  · rename_i sess hf
    refine streamInv_setA_update st a _ _ rfl ?_ hi
    exact streamUnique_of_no_streaming [] (by simp)

theorem assignSubagentToColumn_streamInv (c k m : String) (now : Nat) (st : DeckState)
    (hi : SessionsStreamInv st) :
    SessionsStreamInv (assignSubagentToColumn c k m now st) := by
  unfold assignSubagentToColumn
  split
  · exact hi
  · rename_i sess hf
    refine streamInv_setA_update st c _ _ rfl ?_ hi
    exact streamUnique_append_inert _ _ (Or.inl rfl) (hi c sess hf)

theorem unassignSubagentFromColumn_streamInv (c m : String) (now : Nat) (st : DeckState)
    (hi : SessionsStreamInv st) :
    SessionsStreamInv (unassignSubagentFromColumn c m now st) := by
  unfold unassignSubagentFromColumn
  split
  · exact hi
  · rename_i sess hf
    refine streamInv_setA_update st c _ _ rfl ?_ hi
    exact streamUnique_append_inert _ _ (Or.inl rfl) (hi c sess hf)

theorem findA_filter_ne {α : Type} (l : List (String × α)) (aid cid : String)
    (hne : cid ≠ aid) :
    findA cid (l.filter (fun p => p.1 != aid)) = findA cid l := by
  induction l with
  | nil => rfl
  | cons p rest ih =>
    rcases p with ⟨k, v⟩
    by_cases hk : k = aid
    · subst hk
      have hb : (k != k) = false := by simp
      simp only [List.filter_cons, hb, Bool.false_eq_true, if_false, findA]
      rw [ih, if_neg (fun hh => hne hh.symm)]
    · have hb : (k != aid) = true := by simp [hk]
      simp only [List.filter_cons, hb, if_true, findA]
      by_cases hk2 : k = cid
      · simp [hk2]
      · simp [hk2, ih]

theorem findA_filter_self {α : Type} (l : List (String × α)) (aid : String) :
    findA aid (l.filter (fun p => p.1 != aid)) = none := by
  induction l with
  | nil => rfl
  | cons p rest ih =>
    rcases p with ⟨k, v⟩
    by_cases hk : k = aid
    · subst hk
      have hb : (k != k) = false := by simp
      simp only [List.filter_cons, hb, Bool.false_eq_true, if_false]
      exact ih
    · have hb : (k != aid) = true := by simp [hk]
      simp only [List.filter_cons, hb, if_true, findA]
      rw [if_neg hk]
      exact ih

theorem findA_initCols (agents : List (String × List ChatMessage)) (cid : String)
    (sess : AgentSession)
    (h : findA cid (agents.map
      (fun p => (p.1, { createSession p.1 with messages := p.2 }))) = some sess) :
    ∃ p ∈ agents, sess = { createSession p.1 with messages := p.2 } := by
  induction agents with
  | nil => simp [findA] at h
  | cons q rest ih =>
    rcases q with ⟨id, msgs⟩
    simp only [List.map_cons, findA] at h
    by_cases hc : id = cid
    · rw [if_pos hc] at h
      injection h with h2
      exact ⟨(id, msgs), by simp, h2.symm⟩
    · rw [if_neg hc] at h
      rcases ih h with ⟨p, hp, he⟩
      exact ⟨p, by simp [hp], he⟩

theorem findA_map_val (l : List (String × AgentSession)) (g : AgentSession → AgentSession)
    (cid : String) :
    findA cid (l.map (fun p => (p.1, g p.2))) = (findA cid l).map g := by
  induction l with
  | nil => rfl
  | cons p rest ih =>
    rcases p with ⟨k, v⟩
    simp only [List.map_cons, findA]
    by_cases hk : k = cid
    · simp [hk]
    · simp [hk, ih]

theorem agentColumnPlaceholder_streamInv (mid : String) (now : Nat) (p : AgentEventPayload)
    (a : String) (st : DeckState) (hi : SessionsStreamInv st) :
    SessionsStreamInv (agentColumnPlaceholder mid now p a st) := by
  unfold agentColumnPlaceholder
  split
  · exact hi
  · rename_i sess hf
    split
    · rename_i hcond
      have hany : (sess.messages.any fun m => m.runId == p.runId) = false := by
        rcases Bool.eq_false_or_eq_true (sess.messages.any fun m => m.runId == p.runId)
          with h1 | h1
        · rw [h1] at hcond
          simp at hcond
        · exact h1
      refine streamInv_setA_update st a _ _ rfl ?_ hi
      refine streamUnique_append_freshRun _ _ ?_ (hi a sess hf)
      intro m2 hm2 heq
      have : (sess.messages.any fun m => m.runId == p.runId) = true := by
        rw [List.any_eq_true]
        exact ⟨m2, hm2, by rw [heq]; simp⟩
      rw [this] at hany
      cases hany
    · exact hi

theorem agentStreamDispatch_streamInv (p : AgentEventPayload) (a : String) (st : DeckState)
    (hi : SessionsStreamInv st) : SessionsStreamInv (agentStreamDispatch p a st) := by
  unfold agentStreamDispatch
  split
  · exact setAgentStatus_streamInv _ _ _ (appendMessageChunk_streamInv _ _ _ _ hi)
  · split
    · split
      · exact setAgentStatus_streamInv _ _ _ hi
      · split
        · exact finalizeMessage_streamInv _ _ _ hi
        · exact hi
    · split
      · exact setAgentStatus_streamInv _ _ _ hi
      · exact hi

theorem applyPresence_streamInv (ps : List (String × Bool)) :
    ∀ (l : List (String × AgentSession)),
      (∀ cid sess, findA cid l = some sess → StreamUnique sess.messages) →
      ∀ cid sess, findA cid (applyPresence ps l) = some sess →
        StreamUnique sess.messages := by
  induction ps with
  | nil =>
    intro l hl
    exact hl
  | cons q ps' ih =>
    intro l hl
    rcases q with ⟨id, online⟩
    simp only [applyPresence]
    rcases hf : findA id l with _ | s0
    · exact ih l hl
    · apply ih
      intro cid sess h2
      by_cases hc : cid = id
      · subst hc
        rw [findA_setA_same] at h2
        injection h2 with h3
        rw [← h3]
        exact hl cid s0 hf
      · rw [findA_setA_ne _ _ _ _ hc] at h2
        exact hl cid sess h2

theorem gatewayEvent_streamInv (m1 m2 : String) (now : Nat) (e : GatewayEvent)
    (st : DeckState) (hi : SessionsStreamInv st) :
    SessionsStreamInv (handleGatewayEvent m1 m2 now e st) := by
  cases e with
  | agent p =>
    have h1 : SessionsStreamInv (agentSubagentCapture m1 now p st) :=
      streamInv_of_sessions_eq _ _ (agentSubagentCapture_sessions m1 now p st) hi
    simp only [handleGatewayEvent, handleAgentEvent]
    split
    · exact h1
    · apply agentStreamDispatch_streamInv
      split
      · exact agentColumnPlaceholder_streamInv _ _ _ _ _ h1
      · exact h1
  | presence agents =>
    cases agents with
    | none => exact hi
    | some l =>
      intro cid sess h
      exact applyPresence_streamInv l st.sessions (fun c s hf => hi c s hf) cid sess h
  | tick => exact hi
  | compaction sk b a d =>
    simp only [handleGatewayEvent]
    split
    · exact hi
    · rename_i sess hf
      refine streamInv_setA_update st _ _ _ rfl ?_ hi
      exact streamUnique_append_inert _ _ (Or.inl rfl) (hi _ sess hf)
  | sessionsUsage sk u =>
    cases u with
    | none => exact hi
    | some uu =>
      simp only [handleGatewayEvent]
      split
      · exact hi
      · rename_i sess hf
        exact streamInv_setA_update st _ _ _ rfl (hi _ sess hf) hi
  | chat sk m =>
    exact streamInv_of_sessions_eq _ _ (handleChatEvent_sessions m1 now sk m st) hi
  | unknown n => exact hi

theorem step_streamInv {g : Bool} {st st2 : DeckState} (h : Step g st st2)
    (hi : SessionsStreamInv st) : SessionsStreamInv st2 := by
  cases h with
  | initCols agents hp =>
    intro cid sess hf
    simp only [initColumnsOp] at hf
    rcases findA_initCols agents cid sess hf with ⟨p, hp2, he⟩
    rw [he]
    exact streamUnique_of_no_streaming _ (fun m hm => hp p hp2 m hm)
  | addAgent a =>
    refine streamInv_setA_update st a _ _ rfl ?_ hi
    exact streamUnique_of_no_streaming [] (by simp)
  | removeAgent a =>
    intro cid sess hf
    simp only [removeAgentOp] at hf
    by_cases hc : cid = a
    · subst hc
      rw [findA_filter_self] at hf
      cases hf
    · rw [findA_filter_ne _ _ _ hc] at hf
      exact hi cid sess hf
  | sendUser a u t now => exact sendMessageUser_streamInv a u t now st hi
  | sendPlaceholder a u r now hfresh =>
    exact sendMessagePlaceholder_streamInv a u r now st hfresh hi
  | setStatus a s0 => exact setAgentStatus_streamInv a s0 st hi
  | appendChunk a r c => exact appendMessageChunk_streamInv a r c st hi
  | finalize a r => exact finalizeMessage_streamInv a r st hi
  | gatewayEvent m1 m2 now e => exact gatewayEvent_streamInv m1 m2 now e st hi
  | clearHistory a => exact clearMessageHistory_streamInv a st hi
  | assign c k m now hg => exact assignSubagentToColumn_streamInv c k m now st hi
  | unassign c m now => exact unassignSubagentFromColumn_streamInv c m now st hi
  | sendSub k u t now =>
    intro cid sess hf
    exact hi cid sess hf
  | markConnected =>
    intro cid sess hf
    simp only [markAllConnectedOp] at hf
    have hf2 : (findA cid st.sessions).map (fun s => { s with connected := true }) =
        some sess := by
      rw [← findA_map_val]
      exact hf
    rcases Option.map_eq_some'.mp hf2 with ⟨t, ht, he⟩
    rw [← he]
    exact hi cid t ht

/-- C8: in every state reachable by store operations, every column session
has at most one streaming message per runId (placeholder creation — both in
sendMessage with its fresh runId and in the guarded delegated-column path —
preserves the invariant), and delta accumulation rewrites exactly the
messages that match the runId as streaming, leaving every other message
unchanged. -/
theorem streamingUniqueInv :
    (∀ st, Reach false st → SessionsStreamInv st) ∧
    (∀ st agentId runId chunk sess, findA agentId st.sessions = some sess →
      ∃ sess2, findA agentId (appendMessageChunk agentId runId chunk st).sessions = some sess2 ∧
        sess2.messages = sess.messages.map (fun m =>
          if m.runId == runId && m.streaming then { m with text := m.text ++ chunk }
          else m)) := by
  constructor
  · intro st h
    induction h with
    | refl =>
      intro cid sess hf
      simp [findA, initState] at hf
    | tail h1 h2 ih => exact step_streamInv h2 ih
  · intro st agentId runId chunk sess hf
    unfold appendMessageChunk
    rw [hf]
    exact ⟨_, findA_setA_same _ _ _, rfl⟩

/-- Witness for C8: the invariant holds at a concrete reachable state, and
appendMessageChunk on that state rewrites messages pointwise. -/
theorem streamingUniqueInv_witness :
    SessionsStreamInv (addAgentOp "a" initState) ∧
    (∃ sess2, findA "a"
        (appendMessageChunk "a" (some "r") "x" (addAgentOp "a" initState)).sessions =
          some sess2 ∧
      sess2.messages = (createSession "a").messages.map (fun m =>
        if m.runId == (some "r" : Option String) && m.streaming then
          { m with text := m.text ++ "x" }
        else m)) :=
  ⟨streamingUniqueInv.1 _
      ((Relation.ReflTransGen.refl).tail (Step.addAgent initState "a")),
    streamingUniqueInv.2 (addAgentOp "a" initState) "a" (some "r") "x"
      (createSession "a") (by decide)⟩
